import Mathlib

/-!
Verification of the resolution engine of `dictconfig` (`src/dictconfig/_resolve.py`,
together with `exceptions.py` and the arithmetic parser of `parsers.py`).

The Python code is shallowly embedded:

* Python values (the raw configuration, external variables, resolved results)
  become the inductive `Value`.
* Schemas become the inductive `Schema`; accessor functions mirror the
  `dict.get(..., default)` reads the code performs, so that a schema of the
  wrong kind behaves exactly as the corresponding Python dictionary would.
* The configuration tree of `_DictNode` / `_ListNode` / `_LeafNode` becomes the
  inductive `Node`.  Python memoizes a leaf's resolution in the mutable field
  `_resolved`; here that mutable state is threaded explicitly as `RState`,
  keyed by the leaf's keypath (keypaths of a tree produced by
  `build_configuration_tree_node` are unique, so the keying agrees with
  Python's per-object cells).  `RState` additionally carries an instrumentation
  counter `parseCount` recording how often `_Resolver.parse` was invoked for
  each leaf; the counter never influences control flow.
* Python exceptions become the inductive `Exc`.  The library's own exception
  hierarchy (`exceptions.Error` and subclasses) is distinguished from built-in
  Python exceptions (`KeyError`, `IndexError`, `TypeError`, `SyntaxError`)
  because `_LeafNode._safely` catches only the former.
* Unbounded recursion (Python's call stack) is modelled with an explicit fuel
  parameter; exhausting it yields the distinguished error `Exc.fuelOut`, which
  corresponds to a Python `RecursionError` and is not part of the library's
  exception hierarchy.
-/

namespace Dictconfig

/-- A component of a keypath: a dictionary key or a list index, mirroring the
tuples of strings and ints the Python code builds. -/
inductive PathComp where
  | key (s : String)
  | idx (n : Nat)
deriving DecidableEq, Repr

abbrev KeyPath := List PathComp

/-- Python values as they occur in raw configurations, external variables and
resolved results: `None`, booleans, integers, strings, lists and
string-keyed dictionaries. -/
inductive Value where
  | vnone
  | vbool (b : Bool)
  | vint (n : Int)
  | vstr (s : String)
  | vlist (xs : List Value)
  | vdict (xs : List (String × Value))

/-- `self.raw is None` test used by `_LeafNode.resolve`. -/
def Value.isNone : Value → Bool
  | .vnone => true
  | _ => false

mutual
/-- Python `repr` for the modelled values (string escaping inside `repr` of a
string is not modelled; no claim exercises it). -/
def pyRepr : Value → String
  | .vnone => "None"
  | .vbool b => if b then "True" else "False"
  | .vint n => toString n
  | .vstr s => "'" ++ s ++ "'"
  | .vlist xs => "[" ++ pyReprList xs ++ "]"
  | .vdict xs => "\x7b" ++ pyReprDict xs ++ "\x7d"

def pyReprList : List Value → String
  | [] => ""
  | [v] => pyRepr v
  | v :: rest => pyRepr v ++ ", " ++ pyReprList rest

def pyReprDict : List (String × Value) → String
  | [] => ""
  | [(k, v)] => "'" ++ k ++ "': " ++ pyRepr v
  | (k, v) :: rest => "'" ++ k ++ "': " ++ pyRepr v ++ ", " ++ pyReprDict rest
end

/-- Python `str`: identical to `repr` except on strings, which it returns
unchanged.  This is what `re.sub(pattern, str(substitution), s)` applies to a
substitution, and also the default parser registered for type `"string"`. -/
def pyStr : Value → String
  | .vstr s => s
  | v => pyRepr v

/-- Python exceptions reachable from the embedded code.  The first four
constructors are the library's own hierarchy rooted at `exceptions.Error`;
a `ResolutionError` holds either a string reason (`resolutionMsg`) or a wrapped
exception (`resolutionWrap`), exactly as `ResolutionError(reason, keypath)`
receives either a string or an exception.  The remaining constructors are
Python built-ins, which `_safely` does not catch.  `fuelOut` models
stack exhaustion (`RecursionError`).  `unmodelled` is not a Python exception
at all: it marks an execution that leaves the modelled fragment of the code
(`re.sub` with a regex-significant reference path, see `reSub`); the model
asserts nothing about the program where this marker appears. -/
inductive Exc where
  | plainError (msg : String)
  | parseError (msg : String)
  | resolutionMsg (msg : String) (keypath : KeyPath)
  | resolutionWrap (inner : Exc) (keypath : KeyPath)
  | valueError (msg : String)
  | keyError
  | indexError
  | typeError
  | synErr
  | fuelOut
  | unmodelled (what : String)
deriving DecidableEq, Repr

/-- Membership in the `exceptions.Error` hierarchy: exactly these exceptions
are caught by the `except exceptions.Error` clause of `_LeafNode._safely`. -/
def Exc.isLibError : Exc → Bool
  | .plainError _ => true
  | .parseError _ => true
  | .resolutionMsg _ _ => true
  | .resolutionWrap _ _ => true
  | _ => false

/-- Schemas: a dict schema with `required_keys`, `optional_keys` (each optional
key carrying an optional `default`), an optional `extra_keys_schema` and a
`nullable` flag; a list schema with an `element_schema`; or a leaf schema with
the declared type name.  In Python a schema is a dictionary; the accessor
functions below reproduce the `.get` / `in` / `[...]` reads the code performs
on it. -/
inductive Schema where
  | dictS (required : List (String × Schema))
          (optional : List (String × Schema × Option Value))
          (extra : Option Schema) (nullable : Bool)
  | listS (element : Schema) (nullable : Bool)
  | leafS (type_ : String) (nullable : Bool)

/-- `schema["type"]`: dict and list schemas carry the literal type names
`"dict"` and `"list"`; a leaf schema carries its declared type name. -/
def Schema.typeName : Schema → String
  | .dictS _ _ _ _ => "dict"
  | .listS _ _ => "list"
  | .leafS t _ => t

/-- The test `"nullable" in schema and schema["nullable"]`. -/
def Schema.nullableFlag : Schema → Bool
  | .dictS _ _ _ b => b
  | .listS _ b => b
  | .leafS _ b => b

/-- `dict_schema.get("required_keys", {})`: empty for non-dict schemas. -/
def Schema.requiredKeys : Schema → List (String × Schema)
  | .dictS r _ _ _ => r
  | _ => []

/-- `dict_schema.get("optional_keys", {})`: empty for non-dict schemas. -/
def Schema.optionalKeys : Schema → List (String × Schema × Option Value)
  | .dictS _ o _ _ => o
  | _ => []

/-- `"extra_keys_schema" in dict_schema` / `dict_schema["extra_keys_schema"]`. -/
def Schema.extraKeysSchema : Schema → Option Schema
  | .dictS _ _ e _ => e
  | _ => none

/-- `list_schema["element_schema"]`: raises `KeyError` on a schema that has no
such key, as the subscript does in Python. -/
def Schema.elementSchema : Schema → Except Exc Schema
  | .listS e _ => .ok e
  | _ => .error .keyError

/-- The configuration tree: internal dict and list nodes and leaves.  A leaf
records its raw value, declared type name, keypath and `nullable` attribute,
as `_LeafNode.__init__` does (parent back-references are only used in Python to
reach the root, which the resolver here receives explicitly). -/
inductive Node where
  | dictN (children : List (String × Node))
  | listN (children : List Node)
  | leafN (raw : Value) (type_ : String) (keypath : KeyPath) (nullable : Bool)

/-- Insertion into an insertion-ordered association list with the update
semantics of a Python `dict`: an existing key keeps its position, a new key is
appended. -/
def assocSet {κ α : Type} [DecidableEq κ] : List (κ × α) → κ → α → List (κ × α)
  | [], k, v => [(k, v)]
  | (k', v') :: rest, k, v =>
      if k' = k then (k, v) :: rest else (k', v') :: assocSet rest k v

/-! ## The placeholder scanner

`_LeafNode.references` runs `re.findall(r"\$\{\s?(.+?)\s?\}", raw)` and
`_Resolver.interpolate` runs `re.sub(r"\$\{\s?" + path + r"\s?\}", repl, s)`.
The matchers below implement the first pattern — which is fixed — exactly:
`\s` is the Python whitespace class, `.` matches any character except a
newline, `(.+?)` is lazy, `\s?` is greedy with backtracking, matches are found
left to right and do not overlap.  In the substitution pattern the reference
path is spliced into the regex verbatim, so every regex metacharacter inside
it is regex syntax (for the path `a+` the pattern demands one or more `a` and
never matches the literal text `$\x7ba+\x7d`; an unbalanced `(` even raises
`re.error`), and `re.sub` additionally processes backslash template escapes in
the replacement string (a bad escape raises `re.error`).  The model implements
the fragment these pieces generate for dotted reference paths — every path
character either ordinary (matching itself) or the `.` wildcard, and a
replacement free of backslashes — and returns the explicit `Exc.unmodelled`
marker for every call outside that fragment, asserting nothing about the
program there. -/

/-- Python's `\s` class: space, tab, newline, carriage return, form feed,
vertical tab. -/
def isPyWs (c : Char) : Bool :=
  c = ' ' || c = '\t' || c = '\n' || c = '\r' || c = '\x0b' || c = '\x0c'

/-- Match the tail `\s?\}` of both patterns (greedy `\s?`, then backtrack):
returns the remaining input on success. -/
def checkEnd : List Char → Option (List Char)
  | '\x7d' :: r => some r
  | c :: '\x7d' :: r => if isPyWs c then some r else none
  | _ => none

/-- The lazy group `(.+?)` followed by `\s?\}`: starting from the reversed
group accumulated so far, consume one character at a time (any character but a
newline) and stop at the first position where `checkEnd` succeeds.  Returns
the group and the input remaining after the closing brace. -/
def lazyGroup (racc : List Char) : List Char → Option (String × List Char)
  | [] => none
  | c :: rest =>
    if c = '\n' then none
    else
      match checkEnd rest with
      | some r => some (⟨(c :: racc).reverse⟩, r)
      | none => lazyGroup (c :: racc) rest

/-- Match `\$\{\s?(.+?)\s?\}` at the head of the input: the literal `${`, then
the greedy optional whitespace character (trying to consume it first and
backtracking into the group if the rest of the pattern cannot match), then the
lazy group.  Returns the captured group and the input after the match. -/
def matchPlaceholder : List Char → Option (String × List Char)
  | '$' :: '\x7b' :: rest =>
      (match rest with
       | c :: rest2 =>
           if isPyWs c then
             match lazyGroup [] rest2 with
             | some g => some g
             | none => lazyGroup [] rest
           else lazyGroup [] rest
       | [] => none)
  | _ => none

/-- `re.findall` of the placeholder pattern: scan left to right, resuming after
each match.  Each step consumes at least one character, so the input length
bounds the recursion; the fuel is set to it by `findPlaceholders`. -/
def findPlaceholdersAux : Nat → List Char → List String
  | 0, _ => []
  | _ + 1, [] => []
  | fuel + 1, c :: rest =>
      match matchPlaceholder (c :: rest) with
      | some (g, after) => g :: findPlaceholdersAux fuel after
      | none => findPlaceholdersAux fuel rest

def findPlaceholders (s : String) : List String :=
  findPlaceholdersAux s.data.length s.data

/-- `_LeafNode.references`: the placeholders of the raw value when it is a
string, and the empty list otherwise. -/
def references (raw : Value) : List String :=
  match raw with
  | .vstr s => findPlaceholders s
  | _ => []

/-- Characters Python `re` treats as plain text in a pattern: everything
except the metacharacters `\\ ^ $ . | ? * + ( ) [ ]` and the two braces.
(`[`, `]` and the braces are context-dependent in Python; excluding them
outright keeps the modelled fragment safely inside the literal one.) -/
def regexOrdinary (c : Char) : Bool :=
  !(c = '\\' || c = '^' || c = '$' || c = '.' || c = '|' || c = '?' || c = '*' ||
    c = '+' || c = '(' || c = ')' || c = '[' || c = ']' || c = '\x7b' || c = '\x7d')

/-- The spliced reference paths whose pattern meaning the model implements:
every character ordinary or the `.` wildcard. -/
def literalSplice (path : String) : Bool :=
  path.data.all (fun c => regexOrdinary c || c = '.')

/-- The replacement strings whose template meaning the model implements:
`re.sub` processes backslash escapes in the replacement, so any backslash
leaves the fragment. -/
def plainTemplate (repl : String) : Bool :=
  repl.data.all (fun c => !(c = '\\'))

/-- Match the spliced reference path (inside the modelled fragment) character
by character: `.` matches any non-newline character, every other character
matches itself. -/
def matchChars : List Char → List Char → Option (List Char)
  | [], cs => some cs
  | _ :: _, [] => none
  | p :: ps, c :: cs =>
      if (if p = '.' then c ≠ '\n' else p = c) then matchChars ps cs else none

/-- Match `\$\{\s?<path>\s?\}` at the head of the input, returning the input
after the match. -/
def matchSubAt (path : List Char) (cs : List Char) : Option (List Char) :=
  match cs with
  | '$' :: '\x7b' :: rest =>
      (match rest with
       | c :: rest2 =>
           if isPyWs c then
             match (matchChars path rest2).bind checkEnd with
             | some r => some r
             | none => (matchChars path rest).bind checkEnd
           else (matchChars path rest).bind checkEnd
       | [] => (matchChars path []).bind checkEnd)
  | _ => none

/-- `re.sub` of the substitution pattern: replace every non-overlapping match,
scanning left to right.  Every step consumes at least one character (a match
spans at least `${` `}`), so the input length bounds the recursion. -/
def reSubAux (path : List Char) (repl : String) : Nat → List Char → List Char
  | 0, _ => []
  | _ + 1, [] => []
  | fuel + 1, c :: rest =>
      match matchSubAt path (c :: rest) with
      | some after => repl.data ++ reSubAux path repl fuel after
      | none => c :: reSubAux path repl fuel rest

/-- `re.sub(r"\$\{\s?" + path + r"\s?\}", repl, s)`: inside the modelled
fragment (see the section comment) replace every non-overlapping match; a
call outside the fragment — a regex-significant path character or a backslash
in the replacement — is marked `Exc.unmodelled`. -/
def reSub (path : String) (repl : String) (s : String) : Except Exc String :=
  if literalSplice path && plainTemplate repl then
    .ok ⟨reSubAux path.data repl s.data.length s.data⟩
  else
    .error (.unmodelled "re.sub outside the modelled pattern fragment")

/-! ## Dotted keypath strings

`_explode_dotted_path_string` classifies each dot-separated component with
`str.isnumeric` and converts the numeric ones with `int`.  Both are defined by
the Unicode database of the CPython the source runs on: the two tables below
are its decimal-digit ranges (every one a run of ten code points with digit
values 0–9) and the inclusive code point ranges of all characters with a
`Numeric_Type` (`Decimal`, `Digit` or `Numeric` — the `str.isnumeric`
criterion).  `int` accepts exactly the decimal digits, so a component that is
numeric but not all-decimal (such as `"½"`) makes `int` raise `ValueError`. -/

/-- Zero code points of the Unicode decimal-digit ranges: a character is a
decimal digit iff its code point is `z + d` for one of these `z` and a digit
value `d ≤ 9`. -/
def decimalZeros : List Nat :=
  [0x30, 0x660, 0x6F0, 0x7C0, 0x966, 0x9E6, 0xA66, 0xAE6,
   0xB66, 0xBE6, 0xC66, 0xCE6, 0xD66, 0xDE6, 0xE50, 0xED0,
   0xF20, 0x1040, 0x1090, 0x17E0, 0x1810, 0x1946, 0x19D0, 0x1A80,
   0x1A90, 0x1B50, 0x1BB0, 0x1C40, 0x1C50, 0xA620, 0xA8D0, 0xA900,
   0xA9D0, 0xA9F0, 0xAA50, 0xABF0, 0xFF10, 0x104A0, 0x10D30, 0x11066,
   0x110F0, 0x11136, 0x111D0, 0x112F0, 0x11450, 0x114D0, 0x11650, 0x116C0,
   0x11730, 0x118E0, 0x11950, 0x11C50, 0x11D50, 0x11DA0, 0x16A60, 0x16AC0,
   0x16B50, 0x1D7CE, 0x1D7D8, 0x1D7E2, 0x1D7EC, 0x1D7F6, 0x1E140, 0x1E2F0,
   0x1E950, 0x1FBF0]

/-- The digit value of a decimal-digit character, `none` for any other. -/
def decimalDigitVal (c : Char) : Option Nat :=
  (decimalZeros.find? (fun z => z ≤ c.toNat && c.toNat ≤ z + 9)).map
    (fun z => c.toNat - z)

/-- Inclusive code point ranges of the characters `str.isnumeric` accepts. -/
def numericRanges : List (Nat × Nat) :=
  [(0x30, 0x39), (0xB2, 0xB3), (0xB9, 0xB9), (0xBC, 0xBE),
   (0x660, 0x669), (0x6F0, 0x6F9), (0x7C0, 0x7C9), (0x966, 0x96F),
   (0x9E6, 0x9EF), (0x9F4, 0x9F9), (0xA66, 0xA6F), (0xAE6, 0xAEF),
   (0xB66, 0xB6F), (0xB72, 0xB77), (0xBE6, 0xBF2), (0xC66, 0xC6F),
   (0xC78, 0xC7E), (0xCE6, 0xCEF), (0xD58, 0xD5E), (0xD66, 0xD78),
   (0xDE6, 0xDEF), (0xE50, 0xE59), (0xED0, 0xED9), (0xF20, 0xF33),
   (0x1040, 0x1049), (0x1090, 0x1099), (0x1369, 0x137C), (0x16EE, 0x16F0),
   (0x17E0, 0x17E9), (0x17F0, 0x17F9), (0x1810, 0x1819), (0x1946, 0x194F),
   (0x19D0, 0x19DA), (0x1A80, 0x1A89), (0x1A90, 0x1A99), (0x1B50, 0x1B59),
   (0x1BB0, 0x1BB9), (0x1C40, 0x1C49), (0x1C50, 0x1C59), (0x2070, 0x2070),
   (0x2074, 0x2079), (0x2080, 0x2089), (0x2150, 0x2182), (0x2185, 0x2189),
   (0x2460, 0x249B), (0x24EA, 0x24FF), (0x2776, 0x2793), (0x2CFD, 0x2CFD),
   (0x3007, 0x3007), (0x3021, 0x3029), (0x3038, 0x303A), (0x3192, 0x3195),
   (0x3220, 0x3229), (0x3248, 0x324F), (0x3251, 0x325F), (0x3280, 0x3289),
   (0x32B1, 0x32BF), (0x3405, 0x3405), (0x3483, 0x3483), (0x382A, 0x382A),
   (0x3B4D, 0x3B4D), (0x4E00, 0x4E00), (0x4E03, 0x4E03), (0x4E07, 0x4E07),
   (0x4E09, 0x4E09), (0x4E5D, 0x4E5D), (0x4E8C, 0x4E8C), (0x4E94, 0x4E94),
   (0x4E96, 0x4E96), (0x4EBF, 0x4EC0), (0x4EDF, 0x4EDF), (0x4EE8, 0x4EE8),
   (0x4F0D, 0x4F0D), (0x4F70, 0x4F70), (0x5104, 0x5104), (0x5146, 0x5146),
   (0x5169, 0x5169), (0x516B, 0x516B), (0x516D, 0x516D), (0x5341, 0x5341),
   (0x5343, 0x5345), (0x534C, 0x534C), (0x53C1, 0x53C4), (0x56DB, 0x56DB),
   (0x58F1, 0x58F1), (0x58F9, 0x58F9), (0x5E7A, 0x5E7A), (0x5EFE, 0x5EFF),
   (0x5F0C, 0x5F0E), (0x5F10, 0x5F10), (0x62FE, 0x62FE), (0x634C, 0x634C),
   (0x67D2, 0x67D2), (0x6F06, 0x6F06), (0x7396, 0x7396), (0x767E, 0x767E),
   (0x8086, 0x8086), (0x842C, 0x842C), (0x8CAE, 0x8CAE), (0x8CB3, 0x8CB3),
   (0x8D30, 0x8D30), (0x9621, 0x9621), (0x9646, 0x9646), (0x964C, 0x964C),
   (0x9678, 0x9678), (0x96F6, 0x96F6), (0xA620, 0xA629), (0xA6E6, 0xA6EF),
   (0xA830, 0xA835), (0xA8D0, 0xA8D9), (0xA900, 0xA909), (0xA9D0, 0xA9D9),
   (0xA9F0, 0xA9F9), (0xAA50, 0xAA59), (0xABF0, 0xABF9), (0xF96B, 0xF96B),
   (0xF973, 0xF973), (0xF978, 0xF978), (0xF9B2, 0xF9B2), (0xF9D1, 0xF9D1),
   (0xF9D3, 0xF9D3), (0xF9FD, 0xF9FD), (0xFF10, 0xFF19), (0x10107, 0x10133),
   (0x10140, 0x10178), (0x1018A, 0x1018B), (0x102E1, 0x102FB), (0x10320, 0x10323),
   (0x10341, 0x10341), (0x1034A, 0x1034A), (0x103D1, 0x103D5), (0x104A0, 0x104A9),
   (0x10858, 0x1085F), (0x10879, 0x1087F), (0x108A7, 0x108AF), (0x108FB, 0x108FF),
   (0x10916, 0x1091B), (0x109BC, 0x109BD), (0x109C0, 0x109CF), (0x109D2, 0x109FF),
   (0x10A40, 0x10A48), (0x10A7D, 0x10A7E), (0x10A9D, 0x10A9F), (0x10AEB, 0x10AEF),
   (0x10B58, 0x10B5F), (0x10B78, 0x10B7F), (0x10BA9, 0x10BAF), (0x10CFA, 0x10CFF),
   (0x10D30, 0x10D39), (0x10E60, 0x10E7E), (0x10F1D, 0x10F26), (0x10F51, 0x10F54),
   (0x10FC5, 0x10FCB), (0x11052, 0x1106F), (0x110F0, 0x110F9), (0x11136, 0x1113F),
   (0x111D0, 0x111D9), (0x111E1, 0x111F4), (0x112F0, 0x112F9), (0x11450, 0x11459),
   (0x114D0, 0x114D9), (0x11650, 0x11659), (0x116C0, 0x116C9), (0x11730, 0x1173B),
   (0x118E0, 0x118F2), (0x11950, 0x11959), (0x11C50, 0x11C6C), (0x11D50, 0x11D59),
   (0x11DA0, 0x11DA9), (0x11FC0, 0x11FD4), (0x12400, 0x1246E), (0x16A60, 0x16A69),
   (0x16AC0, 0x16AC9), (0x16B50, 0x16B59), (0x16B5B, 0x16B61), (0x16E80, 0x16E96),
   (0x1D2E0, 0x1D2F3), (0x1D360, 0x1D378), (0x1D7CE, 0x1D7FF), (0x1E140, 0x1E149),
   (0x1E2F0, 0x1E2F9), (0x1E8C7, 0x1E8CF), (0x1E950, 0x1E959), (0x1EC71, 0x1ECAB),
   (0x1ECAD, 0x1ECAF), (0x1ECB1, 0x1ECB4), (0x1ED01, 0x1ED2D), (0x1ED2F, 0x1ED3D),
   (0x1F100, 0x1F10C), (0x1FBF0, 0x1FBF9), (0x20001, 0x20001), (0x20064, 0x20064),
   (0x200E2, 0x200E2), (0x20121, 0x20121), (0x2092A, 0x2092A), (0x20983, 0x20983),
   (0x2098C, 0x2098C), (0x2099C, 0x2099C), (0x20AEA, 0x20AEA), (0x20AFD, 0x20AFD),
   (0x20B19, 0x20B19), (0x22390, 0x22390), (0x22998, 0x22998), (0x23B1B, 0x23B1B),
   (0x2626D, 0x2626D), (0x2F890, 0x2F890)]

def isNumericChar (c : Char) : Bool :=
  numericRanges.any (fun r => r.1 ≤ c.toNat && c.toNat ≤ r.2)

/-- Python `str.isnumeric`: nonempty and every character numeric. -/
def isNumericStr (s : String) : Bool :=
  !s.isEmpty && s.data.all isNumericChar

/-- `int(c)` on a component `str.isnumeric` holds of (the only call site):
the base-10 value when every character is a decimal digit, and otherwise
`ValueError(f"invalid literal for int() with base 10: \x7bc!r\x7d")` — numeric
characters are printable and contain no quote or backslash, so the `repr` in
the message is the component in single quotes. -/
def pyInt (s : String) : Except Exc Nat :=
  match s.data.foldl
      (fun acc c =>
        match acc, decimalDigitVal c with
        | some n, some d => some (10 * n + d)
        | _, _ => none)
      (some 0) with
  | some n => .ok n
  | none => .error (.valueError ("invalid literal for int() with base 10: '" ++ s ++ "'"))

/-- `keypath.split(".")`: dot-separated components, empty components kept, the
empty string yielding one empty component, as in Python. -/
def splitOnDotAux (acc : List Char) : List Char → List String
  | [] => [⟨acc.reverse⟩]
  | '.' :: rest => (⟨acc.reverse⟩ : String) :: splitOnDotAux [] rest
  | c :: rest => splitOnDotAux (c :: acc) rest

def splitOnDot (s : String) : List String :=
  splitOnDotAux [] s.data

/-- `_parse_path_component` applied to each component in order, as the
`tuple(...)` generator evaluates them: a `str.isnumeric` component is
converted by `int` — whose `ValueError` for a numeric-but-not-decimal
component propagates — and any other component stays a string key. -/
def parsePathComponents : List String → Except Exc (List PathComp)
  | [] => .ok []
  | c :: rest =>
      match (if isNumericStr c then (pyInt c).map PathComp.idx else .ok (.key c)) with
      | .error e => .error e
      | .ok comp =>
          match parsePathComponents rest with
          | .error e => .error e
          | .ok comps => .ok (comp :: comps)

/-- `_explode_dotted_path_string`: split on `.` and parse every component. -/
def explode_dotted_path_string (keypath : String) : Except Exc (List PathComp) :=
  parsePathComponents (splitOnDot keypath)

/-- `".".join(exploded_path)`, as the error messages of `_Resolver` compute
it: Python `str.join` raises `TypeError` when it meets a non-string item, so
a path with an integer component cannot be joined. -/
def dottedJoin : List PathComp → Except Exc String
  | [] => .ok ""
  | [.key s] => .ok s
  | .key s :: c :: rest =>
      (match dottedJoin (c :: rest) with
       | .error e => .error e
       | .ok t => .ok (s ++ "." ++ t))
  | .idx _ :: _ => .error .typeError

/-! ## The arithmetic expression parser (`parsers.arithmetic(int)`)

The source parses the string with Python's `ast` module and evaluates `Num`,
`BinOp` and `UnaryOp` nodes, raising `TypeError` on any other node.  The
fragment exercised by integer configuration values — integer literals, `+`,
`-`, `*`, unary minus, parentheses, and bare names (which `ast` parses into a
`Name` node that `_eval` rejects with `TypeError`) — is modelled by the
tokenizer and recursive-descent parser below, with Python's grammar
precedence.  `/`, `**` and `^` produce or involve floats and are unexercised
by every claim; strings using them are treated as the model's `synErr`.
A string that Python's `ast.parse` rejects gives `SyntaxError`; both it and
`TypeError` are built-in exceptions outside the library's `Error` hierarchy. -/

inductive Tok where
  | tnum (n : Nat)
  | tname
  | tplus
  | tminus
  | tstar
  | tlparen
  | trparen
deriving DecidableEq, Repr

/-- Pending token being accumulated by the tokenizer. -/
inductive Pend where
  | pnone
  | pnum (n : Nat)
  | pname
deriving DecidableEq

def flushPend (p : Pend) (acc : List Tok) : List Tok :=
  match p with
  | .pnone => acc
  | .pnum n => .tnum n :: acc
  | .pname => .tname :: acc

/-- Character-by-character tokenizer; `none` signals a character the modelled
grammar has no token for. -/
def tokenizeAux : List Char → Pend → List Tok → Option (List Tok)
  | [], p, acc => some (flushPend p acc).reverse
  | c :: rest, p, acc =>
    if c.isDigit then
      match p with
      | .pnum n => tokenizeAux rest (.pnum (10 * n + (c.toNat - '0'.toNat))) acc
      | .pname => tokenizeAux rest .pname acc
      | .pnone => tokenizeAux rest (.pnum (c.toNat - '0'.toNat)) acc
    else if c.isAlpha || c = '_' then
      tokenizeAux rest .pname (match p with | .pname => acc | q => flushPend q acc)
    else
      let acc := flushPend p acc
      if c = ' ' || c = '\t' then tokenizeAux rest .pnone acc
      else if c = '+' then tokenizeAux rest .pnone (.tplus :: acc)
      else if c = '-' then tokenizeAux rest .pnone (.tminus :: acc)
      else if c = '*' then tokenizeAux rest .pnone (.tstar :: acc)
      else if c = '(' then tokenizeAux rest .pnone (.tlparen :: acc)
      else if c = ')' then tokenizeAux rest .pnone (.trparen :: acc)
      else none

def tokenize (s : String) : Option (List Tok) :=
  tokenizeAux s.data .pnone []

/-- The evaluated `ast` fragment: numbers, names, `+`, `-`, `*`, unary `-`. -/
inductive AExpr where
  | num (n : Int)
  | aname
  | add (a b : AExpr)
  | sub (a b : AExpr)
  | mul (a b : AExpr)
  | neg (a : AExpr)

mutual
/-- `expr := term (("+" | "-") term)*` -/
def parseE : Nat → List Tok → Option (AExpr × List Tok)
  | 0, _ => none
  | fuel + 1, toks =>
      match parseT fuel toks with
      | none => none
      | some (a, rest) => parseELoop fuel a rest

def parseELoop : Nat → AExpr → List Tok → Option (AExpr × List Tok)
  | 0, _, _ => none
  | fuel + 1, a, .tplus :: rest =>
      match parseT fuel rest with
      | none => none
      | some (b, rest') => parseELoop fuel (.add a b) rest'
  | fuel + 1, a, .tminus :: rest =>
      match parseT fuel rest with
      | none => none
      | some (b, rest') => parseELoop fuel (.sub a b) rest'
  | _ + 1, a, rest => some (a, rest)

/-- `term := factor ("*" factor)*` -/
def parseT : Nat → List Tok → Option (AExpr × List Tok)
  | 0, _ => none
  | fuel + 1, toks =>
      match parseF fuel toks with
      | none => none
      | some (a, rest) => parseTLoop fuel a rest

def parseTLoop : Nat → AExpr → List Tok → Option (AExpr × List Tok)
  | 0, _, _ => none
  | fuel + 1, a, .tstar :: rest =>
      match parseF fuel rest with
      | none => none
      | some (b, rest') => parseTLoop fuel (.mul a b) rest'
  | _ + 1, a, rest => some (a, rest)

/-- `factor := "-" factor | number | name | "(" expr ")"` -/
def parseF : Nat → List Tok → Option (AExpr × List Tok)
  | 0, _ => none
  | fuel + 1, .tminus :: rest =>
      match parseF fuel rest with
      | none => none
      | some (a, rest') => some (.neg a, rest')
  | _ + 1, .tnum n :: rest => some (.num (Int.ofNat n), rest)
  | _ + 1, .tname :: rest => some (.aname, rest)
  | fuel + 1, .tlparen :: rest =>
      match parseE fuel rest with
      | none => none
      | some (a, .trparen :: rest') => some (a, rest')
      | some (_, _) => none
  | _ + 1, _ => none
end

/-- `_eval` of `parsers.arithmetic`: evaluate the tree, raising `TypeError` on
a node outside the supported set (a `Name`, in this fragment); an error in the
left operand propagates first, as Python's evaluation order does. -/
def evalA : AExpr → Except Exc Int
  | .num n => .ok n
  | .aname => .error .typeError
  | .add a b =>
      (match evalA a with
       | .error e => .error e
       | .ok x =>
         match evalA b with
         | .error e => .error e
         | .ok y => .ok (x + y))
  | .sub a b =>
      (match evalA a with
       | .error e => .error e
       | .ok x =>
         match evalA b with
         | .error e => .error e
         | .ok y => .ok (x - y))
  | .mul a b =>
      (match evalA a with
       | .error e => .error e
       | .ok x =>
         match evalA b with
         | .error e => .error e
         | .ok y => .ok (x * y))
  | .neg a =>
      (match evalA a with
       | .error e => .error e
       | .ok x => .ok (-x))

/-- Parse and evaluate an arithmetic string as `ast.parse` + `_eval` do:
a string the grammar rejects raises `SyntaxError`, a parsed but unsupported
node raises `TypeError`. -/
def evalArith (s : String) : Except Exc Int :=
  match tokenize s with
  | none => .error .synErr
  | some toks =>
      match parseE (2 * toks.length + 2) toks with
      | some (a, []) => evalA a
      | _ => .error .synErr

/-- A parser function of the registry: raw (interpolated) value in, resolved
value or exception out. -/
abbrev Parser := Value → Except Exc Value

/-- `parsers.arithmetic(int)`: a value that already is an `int` is returned
unchanged (in Python `bool` is a subclass of `int`, so a boolean also passes
through); a string is parsed as an arithmetic expression; any other value
makes `ast.parse` raise `TypeError`. -/
def arithmeticInt : Parser := fun v =>
  match v with
  | .vint n => .ok (.vint n)
  | .vbool b => .ok (.vbool b)
  | .vstr s =>
      match evalArith s with
      | .ok n => .ok (.vint n)
      | .error e => .error e
  | _ => .error .typeError

/-- The `"string"` parser is Python's `str`. -/
def stringParser : Parser := fun v => .ok (.vstr (pyStr v))

/-- The `"any"` parser is the identity `lambda x: x`. -/
def anyParser : Parser := fun v => .ok v

/-- Stand-in for the default parsers whose behaviour no claim exercises
(`float`, `boolean`, `date`, `datetime` wrap stdlib-heavy black boxes the
spec places out of scope); invoking one is made explicit rather than modelled. -/
def unmodelledParser (name : String) : Parser := fun _ =>
  .error (.plainError ("unmodelled parser: " ++ name))

/-- `DEFAULT_PARSERS`, in source order. -/
def DEFAULT_PARSERS : List (String × Parser) :=
  [("integer", arithmeticInt),
   ("float", unmodelledParser "float"),
   ("string", stringParser),
   ("boolean", unmodelledParser "boolean"),
   ("date", unmodelledParser "date"),
   ("datetime", unmodelledParser "datetime"),
   ("any", anyParser)]

/-- `_update_parsers`: the defaults, updated by the overrides in order. -/
def update_parsers (overrides : List (String × Parser)) : List (String × Parser) :=
  overrides.foldl (fun acc kp => assocSet acc kp.1 kp.2) DEFAULT_PARSERS

/-! ## Tree construction (`_build_configuration_tree_node` and the three
populate passes of `_DictNode.from_raw`)

The recursion into child values is passed to the per-dictionary passes as the
function argument `build`, so that each pass is structurally recursive over
its key list; `build_configuration_tree_node` itself recurses on fuel, which
models Python's call stack (the raw configuration is finite, so a fuel of its
size always suffices; see `build_fuel_sufficient`). -/

/-- `_populate_required_keys_children`: for each required key in schema order,
fail with `Missing required key.` if absent, otherwise build the child. -/
def populate_required_keys_children
    (build : Value → Schema → KeyPath → Except Exc Node) :
    List (String × Schema) → List (String × Value) → KeyPath →
    List (String × Node) → Except Exc (List (String × Node))
  | [], _, _, children => .ok children
  | (key, keySchema) :: rest, dct, keypath, children =>
      match dct.lookup key with
      | none => .error (.resolutionMsg "Missing required key." (keypath ++ [.key key]))
      | some v =>
          match build v keySchema (keypath ++ [.key key]) with
          | .error e => .error e
          | .ok child =>
              populate_required_keys_children build rest dct keypath
                (assocSet children key child)

/-- `_populate_optional_keys_children`: use the provided value if present,
else the declared default if any, else skip the key. -/
def populate_optional_keys_children
    (build : Value → Schema → KeyPath → Except Exc Node) :
    List (String × Schema × Option Value) → List (String × Value) → KeyPath →
    List (String × Node) → Except Exc (List (String × Node))
  | [], _, _, children => .ok children
  | (key, keySchema, dflt) :: rest, dct, keypath, children =>
      match (match dct.lookup key with
             | some v => some v
             | none => dflt) with
      | none => populate_optional_keys_children build rest dct keypath children
      | some v =>
          match build v keySchema (keypath ++ [.key key]) with
          | .error e => .error e
          | .ok child =>
              populate_optional_keys_children build rest dct keypath
                (assocSet children key child)

/-- The extra keys of a raw dictionary: the keys not named by `required_keys`
or `optional_keys`, in the dictionary's own order.  Python computes the same
set with `dct.keys() - expected_keys`, whose iteration order is unspecified;
the claims only depend on the set. -/
def extraKeysOf (dct : List (String × Value)) (schema : Schema) : List String :=
  (dct.map (·.1)).filter fun k =>
    decide (k ∉ schema.requiredKeys.map Prod.fst) &&
    decide (k ∉ schema.optionalKeys.map Prod.fst)

/-- Build each extra key against the given schema, in order. -/
def buildExtraKeys
    (build : Value → Schema → KeyPath → Except Exc Node)
    (extraSchema : Schema) (dct : List (String × Value)) (keypath : KeyPath) :
    List String → List (String × Node) → Except Exc (List (String × Node))
  | [], children => .ok children
  | key :: rest, children =>
      match dct.lookup key with
      | none => .error .keyError
      | some v =>
          match build v extraSchema (keypath ++ [.key key]) with
          | .error e => .error e
          | .ok child =>
              buildExtraKeys build extraSchema dct keypath rest
                (assocSet children key child)

/-- `_populate_extra_keys_children`: if extra keys exist and the schema
provides no `extra_keys_schema`, fail with `Unexpected extra key.` naming one
of them; otherwise build every extra key against `extra_keys_schema`. -/
def populate_extra_keys_children
    (build : Value → Schema → KeyPath → Except Exc Node)
    (dct : List (String × Value)) (schema : Schema) (keypath : KeyPath)
    (children : List (String × Node)) : Except Exc (List (String × Node)) :=
  match extraKeysOf dct schema, schema.extraKeysSchema with
  | [], _ => .ok children
  | key :: _, none => .error (.resolutionMsg "Unexpected extra key." (keypath ++ [.key key]))
  | extras, some extraSchema => buildExtraKeys build extraSchema dct keypath extras children

/-- `_DictNode.from_raw`: the three populate passes in order. -/
def dictNodeFromRaw (build : Value → Schema → KeyPath → Except Exc Node)
    (dct : List (String × Value)) (schema : Schema) (keypath : KeyPath) :
    Except Exc Node :=
  match populate_required_keys_children build schema.requiredKeys dct keypath [] with
  | .error e => .error e
  | .ok children =>
    match populate_optional_keys_children build schema.optionalKeys dct keypath children with
    | .error e => .error e
    | .ok children =>
      match populate_extra_keys_children build dct schema keypath children with
      | .error e => .error e
      | .ok children => .ok (.dictN children)

/-- `_ListNode.from_raw`: build every element against `element_schema`. -/
def listNodeFromRaw (build : Value → Schema → KeyPath → Except Exc Node)
    (elementSchema : Schema) (keypath : KeyPath) :
    List Value → Nat → Except Exc (List Node)
  | [], _ => .ok []
  | v :: rest, i =>
      match build v elementSchema (keypath ++ [.idx i]) with
      | .error e => .error e
      | .ok child =>
        match listNodeFromRaw build elementSchema keypath rest (i + 1) with
        | .error e => .error e
        | .ok others => .ok (child :: others)

/-- The permissive dict schema that an `"any"` schema is expanded to when the
raw value is a dictionary. -/
def anyDictSchema : Schema :=
  .dictS [] [] (some (.leafS "any" true)) false

/-- The permissive list schema that an `"any"` schema is expanded to when the
raw value is a list. -/
def anyListSchema : Schema :=
  .listS (.leafS "any" true) false

/-- `_build_configuration_tree_node`.  A raw `None` under a nullable schema
becomes `_LeafNode.from_raw(None, \x7b"type": "any"\x7d, keypath)` — note that
`from_raw`'s `nullable` parameter defaults to `False` and the call does not
override it, so the created leaf's `nullable` attribute is `False`.  A raw
`None` elsewhere raises `ResolutionError("Unexpectedly null.", keypath)`.
Dictionaries and lists recurse after the `"any"` expansion; any other value
becomes a leaf with the schema's `type`. -/
def build_configuration_tree_node :
    Nat → Value → Schema → KeyPath → Except Exc Node
  | 0, _, _, _ => .error .fuelOut
  | fuel + 1, raw, schema, keypath =>
      match raw with
      | .vnone =>
          if schema.nullableFlag then .ok (.leafN .vnone "any" keypath false)
          else .error (.resolutionMsg "Unexpectedly null." keypath)
      | .vdict entries =>
          let schema := if schema.typeName = "any" then anyDictSchema else schema
          dictNodeFromRaw (build_configuration_tree_node fuel) entries schema keypath
      | .vlist elems =>
          let schema := if schema.typeName = "any" then anyListSchema else schema
          (match schema.elementSchema with
           | .error e => .error e
           | .ok elementSchema =>
              match listNodeFromRaw (build_configuration_tree_node fuel)
                      elementSchema keypath elems 0 with
              | .error e => .error e
              | .ok children => .ok (.listN children))
      | _ => .ok (.leafN raw schema.typeName keypath false)

/-! ## Resolution

`_LeafNode.resolve` memoizes through the mutable field `_resolved`, whose
value is `_UNDISCOVERED`, `_PENDING`, or the resolved value; here that is the
per-keypath cell map of `RState`.  The recursion of reference resolution goes
through the explicit function argument `rc` (the continuation that resolves a
referenced node), which `resolveNode` instantiates with itself at one less
fuel. -/

/-- The memoization cell of a leaf: Python's `_PENDING` sentinel or a resolved
value; an absent entry is `_UNDISCOVERED`. -/
inductive Cell where
  | pending
  | resolvedV (v : Value)

/-- The threaded resolution state: the memoization cells, keyed by leaf
keypath, plus the instrumentation counter of `_Resolver.parse` invocations per
leaf keypath (the counter is not part of the Python state and never influences
control flow). -/
structure RState where
  cells : List (KeyPath × Cell)
  parseCount : List (KeyPath × Nat)

def RState.initial : RState := ⟨[], []⟩

def getCell (st : RState) (kp : KeyPath) : Option Cell :=
  st.cells.lookup kp

def setCell (st : RState) (kp : KeyPath) (c : Cell) : RState :=
  { st with cells := assocSet st.cells kp c }

def parseCountOf (st : RState) (kp : KeyPath) : Nat :=
  (st.parseCount.lookup kp).getD 0

def bumpParse (st : RState) (kp : KeyPath) : RState :=
  { st with parseCount := assocSet st.parseCount kp (parseCountOf st kp + 1) }

/-- `_LeafNode._safely`: run the action; re-raise an `exceptions.Error` as
`ResolutionError(exc, self.keypath)`; let any other exception propagate. -/
def safely {α : Type} (kp : KeyPath) : Except Exc α → Except Exc α
  | .ok v => .ok v
  | .error e => .error (if e.isLibError then .resolutionWrap e kp else e)

/-- `_DictNode.__getitem__` / `_ListNode.__getitem__`, together with the
built-in exceptions Python subscripting raises: a missing dictionary key is
`KeyError` (also for an integer component, since the children keys are
strings), an out-of-range list index is `IndexError`, a string component on a
list and any subscript of a `_LeafNode` are `TypeError`. -/
def nodeGetItem : Node → PathComp → Except Exc Node
  | .dictN children, .key s =>
      (match children.lookup s with
       | some n => .ok n
       | none => .error .keyError)
  | .dictN _, .idx _ => .error .keyError
  | .listN children, .idx i =>
      if h : i < children.length then .ok (children.get ⟨i, h⟩) else .error .indexError
  | .listN _, .key _ => .error .typeError
  | .leafN _ _ _ _, _ => .error .typeError

/-- `_get_path` over the configuration tree.  An empty path makes Python
evaluate `exploded_path[0]` on an empty tuple, an `IndexError`. -/
def get_path_node : Node → List PathComp → Except Exc Node
  | _, [] => .error .indexError
  | node, [c] => nodeGetItem node c
  | node, c :: rest =>
      match nodeGetItem node c with
      | .error e => .error e
      | .ok next => get_path_node next rest

/-- Subscripting a plain Python value, for walks of the external variables:
dictionaries and lists as for nodes; a string is subscriptable by an integer
(yielding a one-character string) but not by a string; other scalars are not
subscriptable. -/
def valueGetItem : Value → PathComp → Except Exc Value
  | .vdict entries, .key s =>
      (match entries.lookup s with
       | some v => .ok v
       | none => .error .keyError)
  | .vdict _, .idx _ => .error .keyError
  | .vlist elems, .idx i =>
      if h : i < elems.length then .ok (elems.get ⟨i, h⟩) else .error .indexError
  | .vlist _, .key _ => .error .typeError
  | .vstr s, .idx i =>
      if h : i < s.data.length then .ok (.vstr ⟨[s.data.get ⟨i, h⟩]⟩) else .error .indexError
  | .vstr _, .key _ => .error .typeError
  | _, _ => .error .typeError

/-- `_get_path` over a plain value (the external variables). -/
def get_path_value : Value → List PathComp → Except Exc Value
  | _, [] => .error .indexError
  | v, [c] => valueGetItem v c
  | v, c :: rest =>
      match valueGetItem v c with
      | .error e => .error e
      | .ok next => get_path_value next rest

/-- `_Resolver`: the tree root, the external variables and the parsers. -/
structure Resolver where
  root : Node
  external_variables : Value
  parsers : List (String × Parser)

/-- The resolution continuation: resolves a node in a state, yielding the
resolved value and the updated state. -/
abbrev ResolveCont := Node → RState → Except Exc (Value × RState)

/-- `_Resolver._retrieve_from_root`: walk the tree from the root along
`exploded_path[1:]`; a `KeyError` anywhere in the walk becomes
`Error(f"Cannot resolve: \x7bdotted\x7d")` — where the `".".join` computing
`dotted` itself raises `TypeError` if the path has an integer component —
while other walk exceptions propagate, and the node found is resolved
recursively. -/
def retrieve_from_root (rc : ResolveCont) (r : Resolver)
    (exploded : List PathComp) (st : RState) : Except Exc (Value × RState) :=
  match get_path_node r.root exploded.tail with
  | .error .keyError =>
      (match dottedJoin exploded with
       | .error e => .error e
       | .ok dotted => .error (.plainError ("Cannot resolve: " ++ dotted)))
  | .error e => .error e
  | .ok node => rc node st

/-- `_Resolver._retrieve_from_external_variables`: walk the external variables
mapping; a `KeyError` becomes `Error(f"Cannot find \"\x7bdotted\x7d\" in
external variables.")`, with the same `TypeError` from `".".join` on a path
with an integer component. -/
def retrieve_from_external_variables (r : Resolver) (exploded : List PathComp) :
    Except Exc Value :=
  match get_path_value r.external_variables exploded with
  | .error .keyError =>
      (match dottedJoin exploded with
       | .error e => .error e
       | .ok dotted =>
           .error (.plainError ("Cannot find \"" ++ dotted ++ "\" in external variables.")))
  | .error e => .error e
  | .ok v => .ok v

/-- `_Resolver.interpolate`: explode the dotted reference path; if its first
component is `"self"` retrieve (and recursively resolve) from the tree root,
otherwise look the path up in the external variables; then substitute the
`str` of the retrieved value for every occurrence of the placeholder pattern
in `s`.  `re.sub` requires `s` to be a string (`TypeError` otherwise; the
caller only passes strings, since a non-string raw value has no references). -/
def retrieveSubstitution (rc : ResolveCont) (r : Resolver) (exploded : List PathComp)
    (st : RState) : Except Exc (Value × RState) :=
  match exploded.head? with
  | some (.key "self") => retrieve_from_root rc r exploded st
  | _ =>
      match retrieve_from_external_variables r exploded with
      | .error e => .error e
      | .ok v => .ok (v, st)

def Resolver.interpolate (rc : ResolveCont) (r : Resolver)
    (s : Value) (reference_path : String) (st : RState) :
    Except Exc (Value × RState) :=
  match explode_dotted_path_string reference_path with
  | .error e => .error e
  | .ok exploded =>
      match retrieveSubstitution rc r exploded st with
      | .error e => .error e
      | .ok (substitution, st') =>
          match s with
          | .vstr str =>
              (match reSub reference_path (pyStr substitution) str with
               | .error e => .error e
               | .ok out => .ok (.vstr out, st'))
          | _ => .error .typeError

/-- `_Resolver.parse`: look the type name up in the parser registry
(`Error(f'No parser for type "\x7btype_\x7d".')` if absent) and apply the
parser. -/
def Resolver.parse (r : Resolver) (s : Value) (type_ : String) : Except Exc Value :=
  match r.parsers.lookup type_ with
  | none => .error (.plainError ("No parser for type \"" ++ type_ ++ "\"."))
  | some p => p s

/-- The interpolation loop of `_LeafNode.resolve`: fold
`s = self._safely(resolver.interpolate, s, reference_path)` over the
references. -/
def interpolateAll (rc : ResolveCont) (r : Resolver) (kp : KeyPath) :
    List String → Value → RState → Except Exc (Value × RState)
  | [], s, st => .ok (s, st)
  | ref :: refs, s, st =>
      match safely kp (Resolver.interpolate rc r s ref st) with
      | .error e => .error e
      | .ok (s', st') => interpolateAll rc r kp refs s' st'

/-- `_LeafNode.resolve`: raise `Circular reference` if the cell is pending,
return the cached value if resolved; otherwise mark pending, interpolate every
reference, then either short-circuit to `None` (only when the leaf's
`nullable` attribute is set and the raw value is `None` — unreachable for
trees built by `build_configuration_tree_node`, which never sets the
attribute) or parse the interpolated value, store it and return it. -/
def leafResolve (rc : ResolveCont) (r : Resolver)
    (raw : Value) (type_ : String) (kp : KeyPath) (nullable : Bool)
    (st : RState) : Except Exc (Value × RState) :=
  match getCell st kp with
  | some .pending => .error (.resolutionMsg "Circular reference" kp)
  | some (.resolvedV v) => .ok (v, st)
  | none =>
      let st := setCell st kp .pending
      match interpolateAll rc r kp (references raw) raw st with
      | .error e => .error e
      | .ok (s, st) =>
          if nullable && raw.isNone then
            .ok (.vnone, setCell st kp (.resolvedV .vnone))
          else
            let st := bumpParse st kp
            match safely kp (Resolver.parse r s type_) with
            | .error e => .error e
            | .ok v => .ok (v, setCell st kp (.resolvedV v))

/-- Resolve the children of a `_DictNode` in order, rebuilding a dictionary. -/
def resolveDictChildren (rc : ResolveCont) :
    List (String × Node) → RState → Except Exc (List (String × Value) × RState)
  | [], st => .ok ([], st)
  | (k, n) :: rest, st =>
      match rc n st with
      | .error e => .error e
      | .ok (v, st') =>
          match resolveDictChildren rc rest st' with
          | .error e => .error e
          | .ok (vs, st'') => .ok ((k, v) :: vs, st'')

/-- Resolve the children of a `_ListNode` in order, rebuilding a list. -/
def resolveListChildren (rc : ResolveCont) :
    List Node → RState → Except Exc (List Value × RState)
  | [], st => .ok ([], st)
  | n :: rest, st =>
      match rc n st with
      | .error e => .error e
      | .ok (v, st') =>
          match resolveListChildren rc rest st' with
          | .error e => .error e
          | .ok (vs, st'') => .ok (v :: vs, st'')

/-- The `.resolve(resolver)` methods of the three node classes, with fuel
modelling Python's call stack (`resolve_fuel_sufficient` below shows a fuel
computable from the tree always suffices). -/
def resolveNode (r : Resolver) : Nat → Node → RState → Except Exc (Value × RState)
  | 0, _, _ => .error .fuelOut
  | fuel + 1, node, st =>
      match node with
      | .dictN children =>
          (match resolveDictChildren (resolveNode r fuel) children st with
           | .error e => .error e
           | .ok (vs, st') => .ok (.vdict vs, st'))
      | .listN children =>
          (match resolveListChildren (resolveNode r fuel) children st with
           | .error e => .error e
           | .ok (vs, st') => .ok (.vlist vs, st'))
      | .leafN raw type_ kp nullable =>
          leafResolve (resolveNode r fuel) r raw type_ kp nullable st

/-- The test `"self" in external_variables` at the top of `resolve` (external
variables are a mapping; membership in any other value is irrelevant to the
claims and modelled as `false`). -/
def hasSelfKey : Value → Bool
  | .vdict entries => (entries.lookup "self").isSome
  | _ => false

/-- The entry point `resolve(raw_cfg, schema, external_variables,
override_parsers)`: reject external variables containing the reserved `"self"`
key with `ValueError`, merge the parsers, build the configuration tree and
resolve it from the root.  (`validate_schema` is run here in Python; schemas
of the inductive `Schema` are well-formed by construction.  The
`_ResolutionContext` attached to leaves by `_provide_context_to_leaf_nodes` is
never read during resolution and is omitted.)  The fuel models Python's call
stack for both phases. -/
def resolve (fuel : Nat) (raw_cfg : Value) (schema : Schema)
    (external_variables : Value := .vdict [])
    (override_parsers : List (String × Parser) := []) : Except Exc Value :=
  if hasSelfKey external_variables then
    .error (.valueError "external_variables cannot contain a \"self\" key; it is reserved.")
  else
    match build_configuration_tree_node fuel raw_cfg schema [] with
    | .error e => .error e
    | .ok root =>
        let r : Resolver := ⟨root, external_variables, update_parsers override_parsers⟩
        match resolveNode r fuel root RState.initial with
        | .error e => .error e
        | .ok (v, _) => .ok v

/-! ## Instruments for the metatheory

Sizes, the child-step reachability relation of the configuration tree, the
undiscovered-leaf count used as a termination measure, and the state
invariants relating memoization cells to the parse-invocation counter.  These
are specification-side notions; the embedded code above never mentions them. -/

mutual
def nodeSize : Node → Nat
  | .leafN _ _ _ _ => 1
  | .dictN children => 1 + nodeSizeDict children
  | .listN children => 1 + nodeSizeList children

def nodeSizeDict : List (String × Node) → Nat
  | [] => 0
  | (_, n) :: rest => nodeSize n + nodeSizeDict rest

def nodeSizeList : List Node → Nat
  | [] => 0
  | n :: rest => nodeSize n + nodeSizeList rest
end

mutual
def leafKeypaths : Node → List KeyPath
  | .leafN _ _ kp _ => [kp]
  | .dictN children => leafKeypathsDict children
  | .listN children => leafKeypathsList children

def leafKeypathsDict : List (String × Node) → List KeyPath
  | [] => []
  | (_, n) :: rest => leafKeypaths n ++ leafKeypathsDict rest

def leafKeypathsList : List Node → List KeyPath
  | [] => []
  | n :: rest => leafKeypaths n ++ leafKeypathsList rest
end

/-- One parent-to-child step in a configuration tree. -/
inductive Step : Node → Node → Prop where
  | dictChild {children : List (String × Node)} {k : String} {n : Node}
      (h : (k, n) ∈ children) : Step (.dictN children) n
  | listChild {children : List Node} {n : Node}
      (h : n ∈ children) : Step (.listN children) n

/-- Reachability from a node by child steps; every node `resolveNode` ever
receives (children of internal nodes, targets of `self` reference walks) is
reachable from the root. -/
def Reach : Node → Node → Prop := Relation.ReflTransGen Step

/-- The number of leaf keypaths of the tree whose memoization cell is still
undiscovered: the termination measure of reference resolution. -/
def undisc (root : Node) (st : RState) : Nat :=
  ((leafKeypaths root).filter (fun kp => (getCell st kp).isNone)).length

/-- State evolution along a successful resolution: the cell domain only grows,
and a pending cell stays pending. -/
def cellsMono (st st' : RState) : Prop :=
  (∀ kp, (getCell st kp).isSome → (getCell st' kp).isSome) ∧
  (∀ kp, getCell st kp = some .pending → getCell st' kp = some .pending)

/-- The parser-counting invariant: each leaf's parser has run at most once,
and only for leaves whose cell already holds a resolved value. -/
def pcInv (st : RState) : Prop :=
  ∀ kp, parseCountOf st kp ≤ 1 ∧
    (1 ≤ parseCountOf st kp → ∃ w, getCell st kp = some (.resolvedV w))

/-- What a successful resolution step guarantees about the state it returns:
cells evolve monotonically and the parser-counting invariant is preserved. -/
def resolvePost (st st' : RState) : Prop :=
  cellsMono st st' ∧ (pcInv st → pcInv st')

/-- Whether an exception is, or wraps, the `Circular reference` resolution
error. -/
def Exc.mentionsCircular : Exc → Bool
  | .resolutionMsg msg _ => msg = "Circular reference"
  | .resolutionWrap inner _ => inner.mentionsCircular
  | _ => false

/-! ## Concrete configurations named by the claims -/

def intSchema : Schema := .leafS "integer" false

def strSchema : Schema := .leafS "string" false

/-- Schema `\x7bx:int, y:int, z:int\x7d` of the calibration scenario. -/
def scenario1Schema : Schema :=
  .dictS [("x", intSchema), ("y", intSchema), ("z", intSchema)] [] none false

/-- Input `\x7bx:10, y:20, z:"$\x7bself.x\x7d + $\x7bself.y\x7d"\x7d`. -/
def scenario1Raw : Value :=
  .vdict [("x", .vint 10), ("y", .vint 20),
          ("z", .vstr "$\x7bself.x\x7d + $\x7bself.y\x7d")]

/-- Schema for the two-leaf reference cycle scenario. -/
def cycle2Schema : Schema :=
  .dictS [("foo", strSchema), ("bar", strSchema)] [] none false

/-- Input `\x7bfoo:"$\x7bself.bar\x7d", bar:"$\x7bself.foo\x7d"\x7d`: a pure
two-leaf reference cycle. -/
def cycle2Raw : Value :=
  .vdict [("foo", .vstr "$\x7bself.bar\x7d"), ("bar", .vstr "$\x7bself.foo\x7d")]

def cycleDanglingSchema : Schema :=
  .dictS [("a", strSchema), ("b", strSchema)] [] none false

/-- Leaves `a` and `b` form a reference cycle (the second placeholder of `a`
references `b`, and `b` references `a`), but the first placeholder of `a`
dangles. -/
def cycleDanglingRaw : Value :=
  .vdict [("a", .vstr "$\x7bself.na\x7d $\x7bself.b\x7d"),
          ("b", .vstr "$\x7bself.a\x7d")]

/-- Diamond sharing: `b` and `c` both reference `a`. -/
def diamondSchema : Schema :=
  .dictS [("a", intSchema), ("b", strSchema), ("c", strSchema)] [] none false

def diamondRaw : Value :=
  .vdict [("a", .vstr "1 + 1"), ("b", .vstr "$\x7bself.a\x7d"),
          ("c", .vstr "$\x7bself.a\x7d")]

def listIdxSchema : Schema :=
  .dictS [("l", .listS intSchema false), ("x", strSchema)] [] none false

/-- The placeholder addresses index 5 of a one-element list. -/
def listIdxRaw : Value :=
  .vdict [("l", .vlist [.vint 1]), ("x", .vstr "$\x7bself.l.5\x7d")]

def oneStrFieldSchema : Schema := .dictS [("x", strSchema)] [] none false

def missingSelfKeyRaw : Value := .vdict [("x", .vstr "$\x7bself.qq\x7d")]

/-- The placeholder's path has the numeric component `0`, which the walk of a
dictionary misses with `KeyError`; `".".join` then meets the integer `0`. -/
def numCompRaw : Value := .vdict [("x", .vstr "$\x7bself.0\x7d")]

/-- The placeholder's second component `½` is numeric but not a decimal
digit, so `int` rejects it. -/
def fracCompRaw : Value := .vdict [("x", .vstr "$\x7bself.½\x7d")]

def missingExternalRaw : Value := .vdict [("x", .vstr "$\x7bvars.foo\x7d")]

def oneIntFieldSchema : Schema := .dictS [("x", intSchema)] [] none false

/-- Raw value that the integer parser's `_eval` rejects with `TypeError`. -/
def badArithRaw : Value := .vdict [("x", .vstr "abc")]

/-- Optional key `foo` with default 42 and type integer. -/
def optDefaultSchema : Schema :=
  .dictS [] [("foo", intSchema, some (.vint 42))] none false

/-- Required nullable integer key. -/
def nullableSchema : Schema :=
  .dictS [("x", .leafS "integer" true)] [] none false

def nullableRaw : Value := .vdict [("x", .vnone)]

/-- A resolver over the single nullable-produced leaf with default parsers,
used to observe the parser invocation directly. -/
def nullLeaf : Node := .leafN .vnone "any" [.key "x"] false

def nullLeafResolver : Resolver := ⟨nullLeaf, .vdict [], DEFAULT_PARSERS⟩

/-- Nested required keys: `foo.bar` is required. -/
def nestedReqSchema : Schema :=
  .dictS [("foo", .dictS [("bar", .leafS "any" false)] [] none false)] [] none false

/-- The configuration tree of the diamond scenario, as
`build_configuration_tree_node` constructs it. -/
def diamondTree : Node :=
  .dictN [("a", .leafN (.vstr "1 + 1") "integer" [.key "a"] false),
          ("b", .leafN (.vstr "$\x7bself.a\x7d") "string" [.key "b"] false),
          ("c", .leafN (.vstr "$\x7bself.a\x7d") "string" [.key "c"] false)]

def diamondResolver : Resolver := ⟨diamondTree, .vdict [], DEFAULT_PARSERS⟩

/-- The state after resolving the diamond tree: every leaf resolved, and the
instrumentation counter shows each leaf's parser ran exactly once — in
particular `a`'s parser ran once although both `b` and `c` reference it. -/
def diamondFinalState : RState :=
  ⟨[([.key "a"], .resolvedV (.vint 2)),
    ([.key "b"], .resolvedV (.vstr "2")),
    ([.key "c"], .resolvedV (.vstr "2"))],
   [([.key "a"], 1), ([.key "b"], 1), ([.key "c"], 1)]⟩

/-! # Theorems -/

/-- C3: with schema `\x7bx:int, y:int, z:int\x7d` and input
`\x7bx:10, y:20, z:"$\x7bself.x\x7d + $\x7bself.y\x7d"\x7d`, `resolve` returns
`\x7bx:10, y:20, z:30\x7d`: the raw value of `z` contains exactly the two
placeholders `self.x` and `self.y`; substituting the resolved values of the
referenced leaves textually yields the string `"10 + 20"`, and the default
integer (arithmetic-expression) parser evaluates that string to 30. -/
theorem c3_scenario_interpolate_then_arithmetic :
    references (.vstr "$\x7bself.x\x7d + $\x7bself.y\x7d") = ["self.x", "self.y"] ∧
    reSub "self.x" (pyStr (.vint 10)) "$\x7bself.x\x7d + $\x7bself.y\x7d"
      = .ok "10 + $\x7bself.y\x7d" ∧
    reSub "self.y" (pyStr (.vint 20)) "10 + $\x7bself.y\x7d" = .ok "10 + 20" ∧
    arithmeticInt (.vstr "10 + 20") = .ok (.vint 30) ∧
    resolve 100 scenario1Raw scenario1Schema
      = .ok (.vdict [("x", .vint 10), ("y", .vint 20), ("z", .vint 30)]) :=
  ⟨rfl, rfl, rfl, rfl, rfl⟩

/-- C9 counterexample: a raw `None` at a nullable position does not bypass the
type parser, and does not always resolve to absence.  The tree builder gives
the leaf the wildcard type `"any"` but leaves its `nullable` attribute
`False`, so `_LeafNode.resolve` hands `None` to the registered `"any"`
parser: with the parser overridden (a legal `resolve` argument) the resolved
value is the parser's output, 7, not absence; and with the default parsers the
instrumentation counter records one parser invocation for the leaf. -/
theorem c9_counterexample_any_parser_runs :
    resolve 100 nullableRaw nullableSchema (.vdict [])
        [("any", fun _ => .ok (.vint 7))]
      = .ok (.vdict [("x", .vint 7)]) ∧
    build_configuration_tree_node 100 .vnone (.leafS "integer" true) [.key "x"]
      = .ok (.leafN .vnone "any" [.key "x"] false) ∧
    resolveNode nullLeafResolver 10 nullLeaf RState.initial
      = .ok (.vnone, ⟨[([.key "x"], .resolvedV .vnone)], [([.key "x"], 1)]⟩) ∧
    parseCountOf ⟨[([.key "x"], .resolvedV .vnone)], [([.key "x"], 1)]⟩ [.key "x"] = 1 :=
  ⟨rfl, rfl, rfl, rfl⟩

/-- C9 amended: a raw `None` under a nullable schema builds the leaf
`_LeafNode(None, "any", keypath)` whose `nullable` attribute is `False` (the
`from_raw` call does not set it); under a non-nullable schema tree building
fails with `Unexpectedly null.` at the current keypath.  Resolving the
produced leaf skips interpolation (a non-string raw value has no references)
but invokes the registered `"any"` parser on the absence marker; the default
`"any"` parser is the identity, so with default parsers the resolved value is
absence. -/
theorem c9_amended_nullable_null_runs_any :
    (∀ (fuel : Nat) (schema : Schema) (kp : KeyPath),
        schema.nullableFlag = true →
        build_configuration_tree_node (fuel + 1) .vnone schema kp
          = .ok (.leafN .vnone "any" kp false)) ∧
    (∀ (fuel : Nat) (schema : Schema) (kp : KeyPath),
        schema.nullableFlag = false →
        build_configuration_tree_node (fuel + 1) .vnone schema kp
          = .error (.resolutionMsg "Unexpectedly null." kp)) ∧
    references .vnone = [] ∧
    (∀ (rc : ResolveCont) (r : Resolver) (st : RState) (kp : KeyPath),
        getCell st kp = none →
        r.parsers.lookup "any" = some anyParser →
        leafResolve rc r .vnone "any" kp false st
          = .ok (.vnone,
              setCell (bumpParse (setCell st kp .pending) kp) kp (.resolvedV .vnone))) ∧
    DEFAULT_PARSERS.lookup "any" = some anyParser := by
  refine ⟨?_, ?_, rfl, ?_, rfl⟩
  · intro fuel schema kp h
    simp [build_configuration_tree_node, h]
  · intro fuel schema kp h
    simp [build_configuration_tree_node, h]
  · intro rc r st kp hcell hany
    simp [leafResolve, hcell, references, interpolateAll, safely, Resolver.parse,
          hany, anyParser, Value.isNone]

/-- C9 witness: the amended theorem applied to the concrete nullable leaf of
`nullableSchema` at keypath `x`, from the empty state with default parsers. -/
theorem c9_witness :
    build_configuration_tree_node 100 .vnone (.leafS "integer" true) [.key "x"]
      = .ok (.leafN .vnone "any" [.key "x"] false) ∧
    leafResolve (resolveNode nullLeafResolver 9) nullLeafResolver .vnone "any"
        [.key "x"] false RState.initial
      = .ok (.vnone,
          setCell (bumpParse (setCell RState.initial [.key "x"] .pending) [.key "x"])
            [.key "x"] (.resolvedV .vnone)) :=
  ⟨c9_amended_nullable_null_runs_any.1 99 (.leafS "integer" true) [.key "x"] rfl,
   c9_amended_nullable_null_runs_any.2.2.2.1 (resolveNode nullLeafResolver 9)
     nullLeafResolver RState.initial [.key "x"] rfl rfl⟩

/-- C4 counterexample: not every exception a registered parser raises
surfaces wrapped with the node's keypath.  On input `\x7bx: "abc"\x7d` with an
integer leaf, the default arithmetic parser raises `TypeError` (a built-in,
outside the library's `exceptions.Error` hierarchy), `_safely` does not catch
it, and `resolve` surfaces the bare `TypeError` carrying no keypath at all. -/
theorem c4_counterexample_typeerror_unwrapped :
    resolve 100 badArithRaw oneIntFieldSchema = .error .typeError ∧
    Exc.isLibError .typeError = false :=
  ⟨rfl, rfl⟩

/-- C4 amended: an exception from the library's `exceptions.Error` hierarchy
raised while resolving a leaf is re-raised by `_safely` as
`ResolutionError(exc, keypath)` with that leaf's keypath (so an error crossing
several leaf resolutions is wrapped once per enclosing leaf), build-phase
errors carry their keypath directly, and the first error aborts the whole
`resolve` call with no partial output (`resolve` returns either a value or an
error by construction); but an exception outside that hierarchy — such as the
`TypeError` with which the default arithmetic parser rejects a
non-arithmetic string — propagates unwrapped, with no keypath. -/
theorem c4_amended_error_wrapping :
    (∀ (kp : KeyPath) (e : Exc), e.isLibError = true →
        safely (α := Value × RState) kp (.error e) = .error (.resolutionWrap e kp)) ∧
    (∀ (kp : KeyPath) (e : Exc), e.isLibError = false →
        safely (α := Value × RState) kp (.error e) = .error e) ∧
    (∀ (kp : KeyPath) (v : Value × RState), safely kp (.ok v) = .ok v) ∧
    resolve 100 badArithRaw oneIntFieldSchema (.vdict [])
        [("integer", fun _ => .error (.parseError "bad"))]
      = .error (.resolutionWrap (.parseError "bad") [.key "x"]) ∧
    resolve 100 (.vdict [("foo", .vdict [])]) nestedReqSchema
      = .error (.resolutionMsg "Missing required key." [.key "foo", .key "bar"]) := by
  refine ⟨?_, ?_, ?_, rfl, rfl⟩
  · intro kp e h; simp [safely, h]
  · intro kp e h; simp [safely, h]
  · intro kp v; rfl

/-- C4 witness: the wrapping behaviour of `_safely` applied at the keypath
`x`, to a `ParseError` (wrapped) and to a `TypeError` (passed through). -/
theorem c4_witness :
    safely (α := Value × RState) [.key "x"] (.error (.parseError "bad"))
      = .error (.resolutionWrap (.parseError "bad") [.key "x"]) ∧
    safely (α := Value × RState) [.key "x"] (.error .typeError) = .error .typeError :=
  ⟨c4_amended_error_wrapping.1 [.key "x"] (.parseError "bad") rfl,
   c4_amended_error_wrapping.2.1 [.key "x"] .typeError rfl⟩

/-- C6 counterexample: a reference walk that runs off the end of a list does
not fail with an `UnresolvableReference` error naming the path: the
`except KeyError` of `_retrieve_from_root` does not catch the `IndexError`
Python raises for an out-of-range list index, so on
`\x7bl: [1], x: "$\x7bself.l.5\x7d"\x7d` the bare `IndexError` (no keypath, no
path name) surfaces from `resolve`. -/
theorem c6_counterexample_indexerror_uncaught :
    resolve 100 listIdxRaw listIdxSchema = .error .indexError ∧
    Exc.isLibError .indexError = false :=
  ⟨rfl, rfl⟩

theorem splitOnDotAux_no_dot (cs : List Char) : '.' ∉ cs → ∀ acc : List Char,
    splitOnDotAux acc cs = [⟨acc.reverse ++ cs⟩] := by
  induction cs with
  | nil => intro _ acc; simp [splitOnDotAux]
  | cons c rest ih =>
      intro h acc
      have hc : c ≠ '.' := fun e => h (e ▸ List.mem_cons_self _ _)
      have hr : '.' ∉ rest := fun hm => h (List.mem_cons_of_mem _ hm)
      rw [show splitOnDotAux acc (c :: rest) = splitOnDotAux (c :: acc) rest by
            simp [splitOnDotAux, hc]]
      rw [ih hr (c :: acc)]
      simp

/-- A component without a dot splits into itself alone. -/
theorem splitOnDot_no_dot (s : String) (h : '.' ∉ s.data) : splitOnDot s = [s] := by
  unfold splitOnDot
  rw [splitOnDotAux_no_dot s.data h []]
  simp

/-- `".".join` raises `TypeError` whenever the path has an integer
component. -/
theorem dottedJoin_idx : ∀ (path : List PathComp) (i : Nat), .idx i ∈ path →
    dottedJoin path = .error .typeError
  | [], i, h => absurd h (List.not_mem_nil _)
  | .idx _ :: _, _, _ => rfl
  | [.key s], i, h => by
      rcases List.mem_cons.mp h with h1 | h1
      · exact absurd h1 (by simp)
      · exact absurd h1 (List.not_mem_nil _)
  | .key s :: c :: rest, i, h => by
      have hmem : PathComp.idx i ∈ c :: rest := by
        rcases List.mem_cons.mp h with h1 | h1
        · exact absurd h1 (by simp)
        · exact h1
      show (match dottedJoin (c :: rest) with
            | .error e => (.error e : Except Exc String)
            | .ok t => .ok (s ++ "." ++ t)) = .error .typeError
      rw [dottedJoin_idx (c :: rest) i hmem]

/-- The only exception `".".join` can raise is `TypeError`. -/
theorem dottedJoin_error : ∀ (path : List PathComp) (e : Exc),
    dottedJoin path = .error e → e = .typeError
  | [], e, h => Except.noConfusion h
  | .idx _ :: _, e, h => (Except.error.inj h).symm
  | [.key s], e, h => Except.noConfusion h
  | .key s :: c :: rest, e, h => by
      change (match dottedJoin (c :: rest) with
              | .error e => (.error e : Except Exc String)
              | .ok t => .ok (s ++ "." ++ t)) = .error e at h
      match hj : dottedJoin (c :: rest) with
      | .error e' =>
          simp only [hj] at h
          injection h with h'
          rw [← h']
          exact dottedJoin_error (c :: rest) e' hj
      | .ok t =>
          simp only [hj] at h
          exact Except.noConfusion h

/-- The only exception `int` raises on a numeric component is `ValueError`. -/
theorem pyInt_error (s : String) (e : Exc) (h : pyInt s = .error e) :
    ∃ m, e = .valueError m := by
  unfold pyInt at h
  match hf : s.data.foldl
      (fun acc c =>
        match acc, decimalDigitVal c with
        | some n, some d => some (10 * n + d)
        | _, _ => none)
      (some 0) with
  | some n => simp only [hf] at h; exact Except.noConfusion h
  | none =>
      simp only [hf] at h
      exact ⟨_, (Except.error.inj h).symm⟩

/-- The only exception `_parse_path_component` raises is `int`'s
`ValueError`. -/
theorem parsePathComponents_error : ∀ (cs : List String) (e : Exc),
    parsePathComponents cs = .error e → ∃ m, e = .valueError m
  | [], e, h => Except.noConfusion h
  | c :: rest, e, h => by
      unfold parsePathComponents at h
      match hc : (if isNumericStr c then (pyInt c).map PathComp.idx else .ok (.key c)) with
      | .error e' =>
          simp only [hc] at h
          injection h with h'
          subst h'
          by_cases hn : isNumericStr c = true
          · rw [if_pos hn] at hc
            match hp : pyInt c with
            | .ok v => rw [hp] at hc; exact Except.noConfusion hc
            | .error e2 =>
                rw [hp] at hc
                injection hc with h2
                rw [← h2]
                exact pyInt_error c e2 hp
          · rw [if_neg hn] at hc
            exact Except.noConfusion hc
      | .ok comp =>
          simp only [hc] at h
          match hr : parsePathComponents rest with
          | .error e' =>
              simp only [hr] at h
              injection h with h'
              subst h'
              exact parsePathComponents_error rest e' hr
          | .ok comps =>
              simp only [hr] at h
              exact Except.noConfusion h

/-- The only exception `_explode_dotted_path_string` raises is `int`'s
`ValueError`. -/
theorem explode_error (s : String) (e : Exc)
    (h : explode_dotted_path_string s = .error e) : ∃ m, e = .valueError m :=
  parsePathComponents_error (splitOnDot s) e h

/-- The modelled `re.sub` fails only with the out-of-fragment marker. -/
theorem reSub_error (path repl s : String) (e : Exc) (h : reSub path repl s = .error e) :
    e = .unmodelled "re.sub outside the modelled pattern fragment" := by
  unfold reSub at h
  split at h
  · exact Except.noConfusion h
  · exact (Except.error.inj h).symm

/-- C6 amended: when the dotted path's components are all strings, a missing
dictionary key during a `self`-rooted walk fails with `Error("Cannot resolve:
<full dotted path>")` (then wrapped with the referencing leaf's keypath by
`_safely`) and a missing key during a walk of the external variables fails
with `Error("Cannot find \"<path>\" in external variables.")`; but when the
path has an integer component, the `".".join` computing either message itself
raises `TypeError`, so the walk's failure surfaces as a bare `TypeError`
naming nothing.  A component of decimal digits addresses a list index and a
non-`isnumeric` component a dictionary key, while a component that is numeric
but not all decimal digits (such as `½`) makes `int` raise an equally bare
`ValueError` before any walk begins; and an out-of-range list index raises an
`IndexError` that the walk's `except KeyError` does not convert (see the
counterexample). -/
theorem c6_amended_reference_walk_errors :
    (∀ (rc : ResolveCont) (r : Resolver) (exploded : List PathComp) (st : RState)
       (d : String),
        get_path_node r.root exploded.tail = .error .keyError →
        dottedJoin exploded = .ok d →
        retrieve_from_root rc r exploded st
          = .error (.plainError ("Cannot resolve: " ++ d))) ∧
    (∀ (rc : ResolveCont) (r : Resolver) (exploded : List PathComp) (st : RState),
        get_path_node r.root exploded.tail = .error .keyError →
        (∃ i, .idx i ∈ exploded) →
        retrieve_from_root rc r exploded st = .error .typeError) ∧
    (∀ (r : Resolver) (exploded : List PathComp) (d : String),
        get_path_value r.external_variables exploded = .error .keyError →
        dottedJoin exploded = .ok d →
        retrieve_from_external_variables r exploded
          = .error (.plainError
              ("Cannot find \"" ++ d ++ "\" in external variables."))) ∧
    (∀ (r : Resolver) (exploded : List PathComp),
        get_path_value r.external_variables exploded = .error .keyError →
        (∃ i, .idx i ∈ exploded) →
        retrieve_from_external_variables r exploded = .error .typeError) ∧
    (∀ c : String, isNumericStr c = true → ∀ n : Nat, pyInt c = .ok n →
        explode_dotted_path_string c = .ok [.idx n]) ∧
    (∀ c : String, isNumericStr c = false → '.' ∉ c.data →
        explode_dotted_path_string c = .ok [.key c]) ∧
    (∀ c : String, isNumericStr c = true → ∀ e : Exc, pyInt c = .error e →
        explode_dotted_path_string c = .error e) ∧
    (∀ (children : List (String × Node)) (s : String), children.lookup s = none →
        nodeGetItem (.dictN children) (.key s) = .error .keyError) ∧
    (∀ (xs : List Node) (i : Nat) (h : i < xs.length),
        nodeGetItem (.listN xs) (.idx i) = .ok (xs.get ⟨i, h⟩)) ∧
    (∀ (xs : List Node) (i : Nat), xs.length ≤ i →
        nodeGetItem (.listN xs) (.idx i) = .error .indexError) ∧
    resolve 100 missingSelfKeyRaw oneStrFieldSchema
      = .error (.resolutionWrap (.plainError "Cannot resolve: self.qq") [.key "x"]) ∧
    resolve 100 missingExternalRaw oneStrFieldSchema (.vdict [("vars", .vdict [])])
      = .error (.resolutionWrap
          (.plainError "Cannot find \"vars.foo\" in external variables.") [.key "x"]) ∧
    resolve 100 numCompRaw oneStrFieldSchema = .error .typeError ∧
    resolve 100 fracCompRaw oneStrFieldSchema
      = .error (.valueError "invalid literal for int() with base 10: '½'") ∧
    Exc.isLibError .typeError = false ∧
    Exc.isLibError (.valueError "invalid literal for int() with base 10: '½'") = false := by
  refine ⟨?_, ?_, ?_, ?_, ?_, ?_, ?_, ?_, ?_, ?_, rfl, rfl, rfl, rfl, rfl, rfl⟩
  · intro rc r exploded st d h hj
    simp [retrieve_from_root, h, hj]
  · intro rc r exploded st h hi
    obtain ⟨i, hi⟩ := hi
    simp [retrieve_from_root, h, dottedJoin_idx exploded i hi]
  · intro r exploded d h hj
    simp [retrieve_from_external_variables, h, hj]
  · intro r exploded h hi
    obtain ⟨i, hi⟩ := hi
    simp [retrieve_from_external_variables, h, dottedJoin_idx exploded i hi]
  · intro c hnum n hpy
    have hall : ∀ ch ∈ c.data, isNumericChar ch = true := by
      have h2 := (Bool.and_eq_true _ _).mp hnum
      exact fun ch hm => List.all_eq_true.mp h2.2 ch hm
    have hnd : '.' ∉ c.data := fun hm => by
      have := hall '.' hm
      rw [show isNumericChar '.' = false by decide] at this
      exact Bool.noConfusion this
    simp [explode_dotted_path_string, splitOnDot_no_dot c hnd,
      parsePathComponents, hnum, hpy, Except.map]
  · intro c hnum hnd
    simp [explode_dotted_path_string, splitOnDot_no_dot c hnd, parsePathComponents, hnum]
  · intro c hnum e hpy
    have hall : ∀ ch ∈ c.data, isNumericChar ch = true := by
      have h2 := (Bool.and_eq_true _ _).mp hnum
      exact fun ch hm => List.all_eq_true.mp h2.2 ch hm
    have hnd : '.' ∉ c.data := fun hm => by
      have := hall '.' hm
      rw [show isNumericChar '.' = false by decide] at this
      exact Bool.noConfusion this
    simp [explode_dotted_path_string, splitOnDot_no_dot c hnd,
      parsePathComponents, hnum, hpy, Except.map]
  · intro children s h
    simp [nodeGetItem, h]
  · intro xs i h
    simp [nodeGetItem, h]
  · intro xs i h
    have hn : ¬ i < xs.length := Nat.not_lt.mpr h
    simp [nodeGetItem, hn]

/-- C6 witness: the amended theorem applied to a one-entry tree missing the
key `qq` (all-string path joined to the message, integer-component path giving
`TypeError`), to external variables missing `vars` (same two cases), to the
decimal component `"5"`, the plain component `"qq"`, the numeric-but-not-
decimal component `"½"`, and to a one-element list at indices 0 and 5. -/
theorem c6_witness :
    retrieve_from_root (fun _ st => .ok (.vnone, st))
        ⟨.dictN [("x", nullLeaf)], .vdict [], DEFAULT_PARSERS⟩
        [.key "self", .key "qq"] RState.initial
      = .error (.plainError "Cannot resolve: self.qq") ∧
    retrieve_from_root (fun _ st => .ok (.vnone, st))
        ⟨.dictN [("x", nullLeaf)], .vdict [], DEFAULT_PARSERS⟩
        [.key "self", .idx 0] RState.initial
      = .error .typeError ∧
    retrieve_from_external_variables ⟨nullLeaf, .vdict [], DEFAULT_PARSERS⟩
        [.key "vars", .key "foo"]
      = .error (.plainError "Cannot find \"vars.foo\" in external variables.") ∧
    retrieve_from_external_variables ⟨nullLeaf, .vdict [], DEFAULT_PARSERS⟩
        [.key "vars", .idx 2]
      = .error .typeError ∧
    explode_dotted_path_string "5" = .ok [.idx 5] ∧
    explode_dotted_path_string "qq" = .ok [.key "qq"] ∧
    explode_dotted_path_string "½"
      = .error (.valueError "invalid literal for int() with base 10: '½'") ∧
    nodeGetItem (.dictN [("x", nullLeaf)]) (.key "qq") = .error .keyError ∧
    nodeGetItem (.listN [nullLeaf]) (.idx 0) = .ok nullLeaf ∧
    nodeGetItem (.listN [nullLeaf]) (.idx 5) = .error .indexError := by
  refine ⟨?_, ?_, ?_, ?_, ?_, ?_, ?_, ?_, ?_, ?_⟩
  · exact c6_amended_reference_walk_errors.1 _ _ _ _ "self.qq" rfl rfl
  · exact c6_amended_reference_walk_errors.2.1 _ _ _ _ rfl
      ⟨0, List.mem_cons_of_mem _ (List.mem_cons_self _ _)⟩
  · exact c6_amended_reference_walk_errors.2.2.1 _ _ "vars.foo" rfl rfl
  · exact c6_amended_reference_walk_errors.2.2.2.1 _ _ rfl
      ⟨2, List.mem_cons_of_mem _ (List.mem_cons_self _ _)⟩
  · exact c6_amended_reference_walk_errors.2.2.2.2.1 "5" rfl 5 rfl
  · exact c6_amended_reference_walk_errors.2.2.2.2.2.1 "qq" rfl (by decide)
  · exact c6_amended_reference_walk_errors.2.2.2.2.2.2.1 "½" rfl _ rfl
  · exact c6_amended_reference_walk_errors.2.2.2.2.2.2.2.1 _ "qq" rfl
  · exact c6_amended_reference_walk_errors.2.2.2.2.2.2.2.2.1 [nullLeaf] 0 (by decide)
  · exact c6_amended_reference_walk_errors.2.2.2.2.2.2.2.2.2.1 [nullLeaf] 5 (by decide)

theorem lookup_assocSet_self {κ α : Type} [DecidableEq κ] [BEq κ] [LawfulBEq κ]
    (xs : List (κ × α)) (k : κ) (v : α) : (assocSet xs k v).lookup k = some v := by
  induction xs with
  | nil => simp [assocSet, List.lookup]
  | cons kv rest ih =>
      obtain ⟨k', v'⟩ := kv
      by_cases h : k' = k
      · subst h
        simp [assocSet, List.lookup]
      · have hkk : (k == k') = false := beq_eq_false_iff_ne.mpr fun e => h e.symm
        simp [assocSet, h, List.lookup, hkk, ih]

theorem lookup_assocSet_ne {κ α : Type} [DecidableEq κ] [BEq κ] [LawfulBEq κ]
    (xs : List (κ × α)) (k k' : κ) (v : α) (h : k' ≠ k) :
    (assocSet xs k v).lookup k' = xs.lookup k' := by
  have hkk : (k' == k) = false := beq_eq_false_iff_ne.mpr h
  induction xs with
  | nil => simp [assocSet, List.lookup, hkk]
  | cons kv rest ih =>
      obtain ⟨k0, v0⟩ := kv
      by_cases h0 : k0 = k
      · subst h0
        simp [assocSet, List.lookup, hkk]
      · by_cases hk : k' = k0
        · subst hk
          simp [assocSet, h0, List.lookup]
        · have hk0 : (k' == k0) = false := beq_eq_false_iff_ne.mpr hk
          simp [assocSet, h0, List.lookup, hk0, ih]

theorem lookup_none_not_mem_keys {α : Type} (xs : List (String × α)) (k : String)
    (h : xs.lookup k = none) : k ∉ xs.map Prod.fst := by
  induction xs with
  | nil => simp
  | cons kv rest ih =>
      obtain ⟨k0, v0⟩ := kv
      by_cases hk : k = k0
      · subst hk
        simp [List.lookup] at h
      · have hkk : (k == k0) = false := beq_eq_false_iff_ne.mpr hk
        simp only [List.lookup, hkk] at h
        simpa [hk] using ih h

theorem mem_keys_lookup_some {α : Type} (xs : List (String × α)) (k : String)
    (h : k ∈ xs.map Prod.fst) : ∃ v, xs.lookup k = some v := by
  induction xs with
  | nil => simp at h
  | cons kv rest ih =>
      obtain ⟨k0, v0⟩ := kv
      by_cases hk : k = k0
      · subst hk
        exact ⟨v0, by simp [List.lookup]⟩
      · have hkk : (k == k0) = false := beq_eq_false_iff_ne.mpr hk
        have : k ∈ rest.map Prod.fst := by simpa [hk] using h
        obtain ⟨v, hv⟩ := ih this
        exact ⟨v, by simp [List.lookup, hkk, hv]⟩

/-- Membership facts for the computed extra keys: an extra key is a key of the
raw dictionary and is named by neither `required_keys` nor `optional_keys`. -/
theorem extraKeysOf_spec (dct : List (String × Value)) (schema : Schema) :
    ∀ k ∈ extraKeysOf dct schema,
      k ∈ dct.map Prod.fst ∧ k ∉ schema.requiredKeys.map Prod.fst ∧
        k ∉ schema.optionalKeys.map Prod.fst := by
  intro k hk
  unfold extraKeysOf at hk
  have := List.mem_filter.mp hk
  refine ⟨this.1, ?_, ?_⟩
  · have h2 := this.2
    simp only [Bool.and_eq_true, decide_eq_true_eq] at h2
    exact h2.1
  · have h2 := this.2
    simp only [Bool.and_eq_true, decide_eq_true_eq] at h2
    exact h2.2

/-- A key of the raw dictionary named by neither key set is an extra key. -/
theorem mem_extraKeysOf (dct : List (String × Value)) (schema : Schema) (k : String)
    (hmem : k ∈ dct.map Prod.fst) (hreq : k ∉ schema.requiredKeys.map Prod.fst)
    (hopt : k ∉ schema.optionalKeys.map Prod.fst) : k ∈ extraKeysOf dct schema := by
  unfold extraKeysOf
  exact List.mem_filter.mpr ⟨hmem, by simp [hreq, hopt]⟩

/-! ## Behaviour of the three dictionary-building passes -/

/-- What the required-keys pass writes: keys it does not name are untouched;
with distinct required keys, each required key's child is built from the raw
dictionary's value for it. -/
theorem populate_required_lookup (build : Value → Schema → KeyPath → Except Exc Node) :
    ∀ (required : List (String × Schema)) (dct : List (String × Value)) (kp : KeyPath)
      (children out : List (String × Node)),
    populate_required_keys_children build required dct kp children = .ok out →
    ∀ k : String,
      (k ∉ required.map Prod.fst → out.lookup k = children.lookup k) ∧
      ((required.map Prod.fst).Nodup → ∀ ks, (k, ks) ∈ required →
        ∃ v n, dct.lookup k = some v ∧ build v ks (kp ++ [.key k]) = .ok n ∧
          out.lookup k = some n) := by
  intro required
  induction required with
  | nil =>
      intro dct kp children out h k
      simp [populate_required_keys_children] at h
      subst h
      exact ⟨fun _ => rfl, fun _ ks hks => absurd hks (List.not_mem_nil _)⟩
  | cons kv rest ih =>
      intro dct kp children out h k
      obtain ⟨k0, s0⟩ := kv
      simp only [populate_required_keys_children] at h
      match hv : dct.lookup k0 with
      | none => simp only [hv] at h; exact Except.noConfusion h
      | some v0 =>
          simp only [hv] at h
          match hb : build v0 s0 (kp ++ [.key k0]) with
          | .error e => simp only [hb] at h; exact Except.noConfusion h
          | .ok n0 =>
              simp only [hb] at h
              constructor
              · intro hk
                have hne : k ≠ k0 := fun e => hk (by simp [e])
                have hrest : k ∉ rest.map Prod.fst := fun hm => hk (by simp [hm])
                rw [(ih dct kp _ out h k).1 hrest]
                exact lookup_assocSet_ne children k0 k n0 hne
              · intro hnodup ks hks
                simp only [List.map_cons, List.nodup_cons] at hnodup
                rcases List.mem_cons.mp hks with heq | hmem
                · cases heq
                  refine ⟨v0, n0, hv, hb, ?_⟩
                  rw [(ih dct kp _ out h k).1 hnodup.1]
                  exact lookup_assocSet_self children k n0
                · exact (ih dct kp _ out h k).2 hnodup.2 ks hmem

/-- The required-keys pass fails when a required key is missing: either with
`Missing required key.` at some missing required key, or, if an earlier
present required key's own construction fails, with that failure. -/
theorem populate_required_missing (build : Value → Schema → KeyPath → Except Exc Node) :
    ∀ (required : List (String × Schema)) (dct : List (String × Value)) (kp : KeyPath)
      (children : List (String × Node)),
    (∃ k, k ∈ required.map Prod.fst ∧ dct.lookup k = none) →
    ∃ e, populate_required_keys_children build required dct kp children = .error e ∧
      ((∃ k', k' ∈ required.map Prod.fst ∧ dct.lookup k' = none ∧
          e = .resolutionMsg "Missing required key." (kp ++ [.key k'])) ∨
       (∃ k'' s v, (k'', s) ∈ required ∧ dct.lookup k'' = some v ∧
          build v s (kp ++ [.key k'']) = .error e)) := by
  intro required
  induction required with
  | nil =>
      intro dct kp children h
      obtain ⟨k, hk, _⟩ := h
      simp at hk
  | cons kv rest ih =>
      intro dct kp children h
      obtain ⟨k0, s0⟩ := kv
      match hv : dct.lookup k0 with
      | none =>
          refine ⟨.resolutionMsg "Missing required key." (kp ++ [.key k0]), ?_, ?_⟩
          · simp [populate_required_keys_children, hv]
          · exact Or.inl ⟨k0, by simp, hv, rfl⟩
      | some v0 =>
          match hb : build v0 s0 (kp ++ [.key k0]) with
          | .error e =>
              refine ⟨e, ?_, Or.inr ⟨k0, s0, v0, by simp, hv, hb⟩⟩
              simp [populate_required_keys_children, hv, hb]
          | .ok n0 =>
              obtain ⟨k, hk, hknone⟩ := h
              have hkr : k ∈ rest.map Prod.fst := by
                rcases (by simpa using hk : k = k0 ∨ k ∈ rest.map Prod.fst) with rfl | hm
                · rw [hv] at hknone; exact absurd hknone (by simp)
                · exact hm
              obtain ⟨e, he, hcase⟩ := ih dct kp (assocSet children k0 n0) ⟨k, hkr, hknone⟩
              refine ⟨e, ?_, ?_⟩
              · simp [populate_required_keys_children, hv, hb, he]
              · rcases hcase with ⟨k', h1, h2, h3⟩ | ⟨k'', s, v, h1, h2, h3⟩
                · exact Or.inl ⟨k', by simp [h1], h2, h3⟩
                · exact Or.inr ⟨k'', s, v, by simp [h1], h2, h3⟩

/-- What the optional-keys pass writes: keys it does not name are untouched;
with distinct optional keys, each optional key's child is built from the
provided value if present, else from the declared default if any, else the
entry is left untouched. -/
theorem populate_optional_lookup (build : Value → Schema → KeyPath → Except Exc Node) :
    ∀ (optional : List (String × Schema × Option Value)) (dct : List (String × Value))
      (kp : KeyPath) (children out : List (String × Node)),
    populate_optional_keys_children build optional dct kp children = .ok out →
    ∀ k : String,
      (k ∉ optional.map Prod.fst → out.lookup k = children.lookup k) ∧
      ((optional.map Prod.fst).Nodup → ∀ ks dflt, (k, ks, dflt) ∈ optional →
        ((∃ v n, dct.lookup k = some v ∧ build v ks (kp ++ [.key k]) = .ok n ∧
            out.lookup k = some n) ∨
         (∃ d n, dct.lookup k = none ∧ dflt = some d ∧
            build d ks (kp ++ [.key k]) = .ok n ∧ out.lookup k = some n) ∨
         (dct.lookup k = none ∧ dflt = none ∧ out.lookup k = children.lookup k))) := by
  intro optional
  induction optional with
  | nil =>
      intro dct kp children out h k
      simp [populate_optional_keys_children] at h
      subst h
      exact ⟨fun _ => rfl, fun _ ks dflt hks => absurd hks (List.not_mem_nil _)⟩
  | cons kv rest ih =>
      intro dct kp children out h k
      obtain ⟨k0, s0, d0⟩ := kv
      simp only [populate_optional_keys_children] at h
      match hv : dct.lookup k0, hd0 : d0 with
      | none, none =>
          simp only [hv, hd0] at h
          constructor
          · intro hk
            have hrest : k ∉ rest.map Prod.fst := fun hm => hk (by simp [hm])
            exact (ih dct kp children out h k).1 hrest
          · intro hnodup ks dflt hks
            simp only [List.map_cons, List.nodup_cons] at hnodup
            rcases List.mem_cons.mp hks with heq | hmem
            · cases heq
              exact Or.inr (Or.inr ⟨hv, rfl, (ih dct kp children out h k).1 hnodup.1⟩)
            · exact (ih dct kp children out h k).2 hnodup.2 ks dflt hmem
      | none, some dv =>
          simp only [hv, hd0] at h
          match hb : build dv s0 (kp ++ [.key k0]) with
          | .error e => simp only [hb] at h; exact Except.noConfusion h
          | .ok n0 =>
              simp only [hb] at h
              constructor
              · intro hk
                have hne : k ≠ k0 := fun e => hk (by simp [e])
                have hrest : k ∉ rest.map Prod.fst := fun hm => hk (by simp [hm])
                rw [(ih dct kp _ out h k).1 hrest]
                exact lookup_assocSet_ne children k0 k n0 hne
              · intro hnodup ks dflt hks
                simp only [List.map_cons, List.nodup_cons] at hnodup
                rcases List.mem_cons.mp hks with heq | hmem
                · cases heq
                  refine Or.inr (Or.inl ⟨dv, n0, hv, rfl, hb, ?_⟩)
                  rw [(ih dct kp _ out h k).1 hnodup.1]
                  exact lookup_assocSet_self children k n0
                · have hkr : k ∈ rest.map Prod.fst :=
                    List.mem_map.mpr ⟨(k, ks, dflt), hmem, rfl⟩
                  have hne : k ≠ k0 := fun e => hnodup.1 (e ▸ hkr)
                  rcases (ih dct kp _ out h k).2 hnodup.2 ks dflt hmem with h1 | h2 | ⟨ha, hb', hc⟩
                  · exact Or.inl h1
                  · exact Or.inr (Or.inl h2)
                  · exact Or.inr (Or.inr ⟨ha, hb', by
                      rw [hc]; exact lookup_assocSet_ne children k0 k n0 hne⟩)
      | some v0, _ =>
          simp only [hv] at h
          match hb : build v0 s0 (kp ++ [.key k0]) with
          | .error e => simp only [hb] at h; exact Except.noConfusion h
          | .ok n0 =>
              simp only [hb] at h
              constructor
              · intro hk
                have hne : k ≠ k0 := fun e => hk (by simp [e])
                have hrest : k ∉ rest.map Prod.fst := fun hm => hk (by simp [hm])
                rw [(ih dct kp _ out h k).1 hrest]
                exact lookup_assocSet_ne children k0 k n0 hne
              · intro hnodup ks dflt hks
                simp only [List.map_cons, List.nodup_cons] at hnodup
                rcases List.mem_cons.mp hks with heq | hmem
                · cases heq
                  refine Or.inl ⟨v0, n0, hv, hb, ?_⟩
                  rw [(ih dct kp _ out h k).1 hnodup.1]
                  exact lookup_assocSet_self children k n0
                · have hkr : k ∈ rest.map Prod.fst :=
                    List.mem_map.mpr ⟨(k, ks, dflt), hmem, rfl⟩
                  have hne : k ≠ k0 := fun e => hnodup.1 (e ▸ hkr)
                  rcases (ih dct kp _ out h k).2 hnodup.2 ks dflt hmem with h1 | h2 | ⟨ha, hb', hc⟩
                  · exact Or.inl h1
                  · exact Or.inr (Or.inl h2)
                  · exact Or.inr (Or.inr ⟨ha, hb', by
                      rw [hc]; exact lookup_assocSet_ne children k0 k n0 hne⟩)

/-- What building the extra keys writes: a processed extra key's child is
built from the raw dictionary's value against the extra-keys schema, and other
keys are untouched. -/
theorem buildExtraKeys_lookup (build : Value → Schema → KeyPath → Except Exc Node)
    (es : Schema) (dct : List (String × Value)) (kp : KeyPath) :
    ∀ (extras : List String) (children out : List (String × Node)),
    buildExtraKeys build es dct kp extras children = .ok out →
    ∀ k : String,
      (k ∈ extras → ∃ v n, dct.lookup k = some v ∧
          build v es (kp ++ [.key k]) = .ok n ∧ out.lookup k = some n) ∧
      (k ∉ extras → out.lookup k = children.lookup k) := by
  intro extras
  induction extras with
  | nil =>
      intro children out h k
      simp [buildExtraKeys] at h
      subst h
      exact ⟨fun hk => absurd hk (List.not_mem_nil _), fun _ => rfl⟩
  | cons k0 rest ih =>
      intro children out h k
      simp only [buildExtraKeys] at h
      match hv : dct.lookup k0 with
      | none => simp only [hv] at h; exact Except.noConfusion h
      | some v0 =>
          simp only [hv] at h
          match hb : build v0 es (kp ++ [.key k0]) with
          | .error e => simp only [hb] at h; exact Except.noConfusion h
          | .ok n0 =>
              simp only [hb] at h
              constructor
              · intro hk
                by_cases hkr : k ∈ rest
                · exact (ih _ out h k).1 hkr
                · have hkk : k = k0 := by
                    rcases List.mem_cons.mp hk with h' | h'
                    · exact h'
                    · exact absurd h' hkr
                  subst hkk
                  refine ⟨v0, n0, hv, hb, ?_⟩
                  rw [(ih _ out h k).2 hkr]
                  exact lookup_assocSet_self children k n0
              · intro hk
                have hne : k ≠ k0 := fun e => hk (by simp [e])
                have hkr : k ∉ rest := fun hm => hk (by simp [hm])
                rw [(ih _ out h k).2 hkr]
                exact lookup_assocSet_ne children k0 k n0 hne

/-- The extra-keys pass leaves keys that are not extra keys untouched. -/
theorem populate_extra_lookup_notin (build : Value → Schema → KeyPath → Except Exc Node)
    (dct : List (String × Value)) (schema : Schema) (kp : KeyPath)
    (children out : List (String × Node))
    (h : populate_extra_keys_children build dct schema kp children = .ok out)
    (k : String) (hk : k ∉ extraKeysOf dct schema) :
    out.lookup k = children.lookup k := by
  unfold populate_extra_keys_children at h
  match hex : extraKeysOf dct schema, hes : schema.extraKeysSchema with
  | [], _ =>
      rw [hex] at h
      simp at h
      rw [h]
  | k0 :: rest, none =>
      rw [hex, hes] at h
      exact Except.noConfusion h
  | k0 :: rest, some es =>
      rw [hex, hes] at h
      rw [hex] at hk
      exact (buildExtraKeys_lookup build es dct kp (k0 :: rest) children out h k).2 hk

/-- The extra-keys pass, when an extra-keys schema is available, builds every
extra key against it. -/
theorem populate_extra_lookup_mem (build : Value → Schema → KeyPath → Except Exc Node)
    (dct : List (String × Value)) (schema : Schema) (kp : KeyPath)
    (children out : List (String × Node)) (es : Schema)
    (hes : schema.extraKeysSchema = some es)
    (h : populate_extra_keys_children build dct schema kp children = .ok out)
    (k : String) (hk : k ∈ extraKeysOf dct schema) :
    ∃ v n, dct.lookup k = some v ∧ build v es (kp ++ [.key k]) = .ok n ∧
      out.lookup k = some n := by
  unfold populate_extra_keys_children at h
  match hex : extraKeysOf dct schema with
  | [] => rw [hex] at hk; exact absurd hk (List.not_mem_nil _)
  | k0 :: rest =>
      rw [hex, hes] at h
      rw [hex] at hk
      exact (buildExtraKeys_lookup build es dct kp (k0 :: rest) children out h k).1 hk

/-- Building a raw dictionary against a dict schema (whose type name is
`"dict"`, not `"any"`, so no expansion happens) is the three-pass
construction. -/
theorem buildNode_vdict_eq (fuel : Nat) (dct : List (String × Value))
    (required : List (String × Schema)) (optional : List (String × Schema × Option Value))
    (extra : Option Schema) (nb : Bool) (kp : KeyPath) :
    build_configuration_tree_node (fuel + 1) (.vdict dct) (.dictS required optional extra nb) kp
      = dictNodeFromRaw (build_configuration_tree_node fuel) dct
          (.dictS required optional extra nb) kp := rfl

/-- Inversion of a successful three-pass dictionary construction. -/
theorem dictNodeFromRaw_ok_inv (build : Value → Schema → KeyPath → Except Exc Node)
    (dct : List (String × Value)) (schema : Schema) (kp : KeyPath) (node : Node)
    (h : dictNodeFromRaw build dct schema kp = .ok node) :
    ∃ ch1 ch2 ch3,
      populate_required_keys_children build schema.requiredKeys dct kp [] = .ok ch1 ∧
      populate_optional_keys_children build schema.optionalKeys dct kp ch1 = .ok ch2 ∧
      populate_extra_keys_children build dct schema kp ch2 = .ok ch3 ∧
      node = .dictN ch3 := by
  unfold dictNodeFromRaw at h
  match h1 : populate_required_keys_children build schema.requiredKeys dct kp [] with
  | .error e => simp only [h1] at h; exact Except.noConfusion h
  | .ok ch1 =>
      simp only [h1] at h
      match h2 : populate_optional_keys_children build schema.optionalKeys dct kp ch1 with
      | .error e => simp only [h2] at h; exact Except.noConfusion h
      | .ok ch2 =>
          simp only [h2] at h
          match h3 : populate_extra_keys_children build dct schema kp ch2 with
          | .error e => simp only [h3] at h; exact Except.noConfusion h
          | .ok ch3 =>
              simp only [h3] at h
              cases h
              exact ⟨ch1, ch2, ch3, rfl, h2, h3, rfl⟩

/-- A failing first pass fails the dictionary construction with its error. -/
theorem dictNodeFromRaw_required_error (build : Value → Schema → KeyPath → Except Exc Node)
    (dct : List (String × Value)) (schema : Schema) (kp : KeyPath) (e : Exc)
    (h : populate_required_keys_children build schema.requiredKeys dct kp [] = .error e) :
    dictNodeFromRaw build dct schema kp = .error e := by
  unfold dictNodeFromRaw
  rw [h]

/-- C7 counterexample: neither error kind of the claim is guaranteed.  The
three populate passes run in order (required, optional, extra) and the
required pass processes its keys one by one, so an earlier error masks the
claimed one: with required keys `a` and `b` and input `\x7ba: None\x7d`, the
present-but-null `a` fails construction with `Unexpectedly null.` and the
missing required key `b` is never reported as `Missing required key.`; and
with required key `a` and input `\x7bb: 1\x7d`, the missing `a` is reported
and the uncovered extra key `b` is never reported as
`Unexpected extra key.`. -/
theorem c7_counterexample_error_masking :
    resolve 100 (.vdict [("a", .vnone)])
        (.dictS [("a", .leafS "any" false), ("b", .leafS "any" false)] [] none false)
      = .error (.resolutionMsg "Unexpectedly null." [.key "a"]) ∧
    resolve 100 (.vdict [("b", .vint 1)])
        (.dictS [("a", .leafS "any" false)] [] none false)
      = .error (.resolutionMsg "Missing required key." [.key "a"]) :=
  ⟨rfl, rfl⟩

/-- C7 amended: for every dict schema and raw mapping, a missing required key
makes tree construction fail; when additionally every present required key's
child builds successfully, that failure is `Missing required key.` at
`keypath + key` for a missing required key (without that proviso an earlier
required child's error surfaces instead, see the counterexample).  An input
key named by neither `required_keys` nor `optional_keys` causes, when no
`extra_keys_schema` is provided and the first two passes succeed (a missing
required key masks this error too), a failure `Unexpected extra key.` naming
one such key (the first in the raw dictionary's order; Python picks an
unspecified element of a set); when an `extra_keys_schema` is provided, every
extra key's child is built against it. -/
theorem c7_amended_required_and_extra_keys :
    (∀ (fuel : Nat) (dct : List (String × Value)) (required : List (String × Schema))
       (optional : List (String × Schema × Option Value)) (extra : Option Schema)
       (nb : Bool) (kp : KeyPath),
       (∃ k, k ∈ required.map Prod.fst ∧ dct.lookup k = none) →
       ∃ e, build_configuration_tree_node (fuel + 1) (.vdict dct)
              (.dictS required optional extra nb) kp = .error e) ∧
    (∀ (fuel : Nat) (dct : List (String × Value)) (required : List (String × Schema))
       (optional : List (String × Schema × Option Value)) (extra : Option Schema)
       (nb : Bool) (kp : KeyPath),
       (∃ k, k ∈ required.map Prod.fst ∧ dct.lookup k = none) →
       (∀ k' s v, (k', s) ∈ required → dct.lookup k' = some v →
          ∃ n, build_configuration_tree_node fuel v s (kp ++ [.key k']) = .ok n) →
       ∃ k', k' ∈ required.map Prod.fst ∧ dct.lookup k' = none ∧
         build_configuration_tree_node (fuel + 1) (.vdict dct)
             (.dictS required optional extra nb) kp
           = .error (.resolutionMsg "Missing required key." (kp ++ [.key k']))) ∧
    (∀ (fuel : Nat) (dct : List (String × Value)) (required : List (String × Schema))
       (optional : List (String × Schema × Option Value)) (nb : Bool) (kp : KeyPath)
       (ch1 ch2 : List (String × Node)) (k : String) (ks : List String),
       populate_required_keys_children (build_configuration_tree_node fuel)
           required dct kp [] = .ok ch1 →
       populate_optional_keys_children (build_configuration_tree_node fuel)
           optional dct kp ch1 = .ok ch2 →
       extraKeysOf dct (.dictS required optional none nb) = k :: ks →
       build_configuration_tree_node (fuel + 1) (.vdict dct)
           (.dictS required optional none nb) kp
         = .error (.resolutionMsg "Unexpected extra key." (kp ++ [.key k])) ∧
       k ∈ dct.map Prod.fst ∧ k ∉ required.map Prod.fst ∧ k ∉ optional.map Prod.fst) ∧
    (∀ (fuel : Nat) (dct : List (String × Value)) (required : List (String × Schema))
       (optional : List (String × Schema × Option Value)) (es : Schema) (nb : Bool)
       (kp : KeyPath) (children : List (String × Node)) (k : String),
       build_configuration_tree_node (fuel + 1) (.vdict dct)
           (.dictS required optional (some es) nb) kp = .ok (.dictN children) →
       k ∈ extraKeysOf dct (.dictS required optional (some es) nb) →
       ∃ v n, dct.lookup k = some v ∧
         build_configuration_tree_node fuel v es (kp ++ [.key k]) = .ok n ∧
         children.lookup k = some n) := by
  refine ⟨?_, ?_, ?_, ?_⟩
  · intro fuel dct required optional extra nb kp hmiss
    obtain ⟨e, he, _⟩ := populate_required_missing
      (build_configuration_tree_node fuel) required dct kp [] hmiss
    exact ⟨e, by
      rw [buildNode_vdict_eq]
      exact dictNodeFromRaw_required_error _ _ _ _ _ he⟩
  · intro fuel dct required optional extra nb kp hmiss hok
    obtain ⟨e, he, hcase⟩ := populate_required_missing
      (build_configuration_tree_node fuel) required dct kp [] hmiss
    rcases hcase with ⟨k', h1, h2, h3⟩ | ⟨k'', s, v, h1, h2, h3⟩
    · subst h3
      refine ⟨k', h1, h2, ?_⟩
      rw [buildNode_vdict_eq]
      exact dictNodeFromRaw_required_error _ _ _ _ _ he
    · obtain ⟨n, hn⟩ := hok k'' s v h1 h2
      rw [hn] at h3
      exact Except.noConfusion h3
  · intro fuel dct required optional nb kp ch1 ch2 k ks h1 h2 hex
    have hspec := extraKeysOf_spec dct (.dictS required optional none nb) k
      (by rw [hex]; exact List.mem_cons_self _ _)
    refine ⟨?_, hspec.1, hspec.2.1, hspec.2.2⟩
    rw [buildNode_vdict_eq]
    unfold dictNodeFromRaw
    simp only [show Schema.requiredKeys (.dictS required optional none nb) = required from rfl,
      show Schema.optionalKeys (.dictS required optional none nb) = optional from rfl, h1, h2]
    unfold populate_extra_keys_children
    rw [hex]
    rfl
  · intro fuel dct required optional es nb kp children k hbuild hk
    rw [buildNode_vdict_eq] at hbuild
    obtain ⟨ch1, ch2, ch3, h1, h2, h3, heq⟩ := dictNodeFromRaw_ok_inv _ _ _ _ _ hbuild
    cases heq
    exact populate_extra_lookup_mem _ dct (.dictS required optional (some es) nb) kp
      ch2 children es rfl h3 k hk

/-- C7 witness: the theorem's extra-key clauses applied to the concrete raw
dictionary `\x7bfoo: 42\x7d` against the empty dict schema (failure naming
`foo`) and against a dict schema whose `extra_keys_schema` is the integer leaf
schema (the extra key is built against it). -/
theorem c7_witness :
    (build_configuration_tree_node 100 (.vdict [("foo", .vint 42)])
         (.dictS [] [] none false) []
       = .error (.resolutionMsg "Unexpected extra key." [.key "foo"]) ∧
     "foo" ∈ ([("foo", Value.vint 42)]).map Prod.fst ∧
     "foo" ∉ ([] : List (String × Schema)).map Prod.fst ∧
     "foo" ∉ ([] : List (String × Schema × Option Value)).map Prod.fst) ∧
    (∃ v n, ([("foo", Value.vint 42)]).lookup "foo" = some v ∧
      build_configuration_tree_node 99 v intSchema [.key "foo"] = .ok n ∧
      ([("foo", Node.leafN (.vint 42) "integer" [.key "foo"] false)]).lookup "foo" = some n) := by
  constructor
  · exact c7_amended_required_and_extra_keys.2.2.1 99 [("foo", .vint 42)] [] [] false []
      [] [] "foo" [] rfl rfl rfl
  · exact c7_amended_required_and_extra_keys.2.2.2 99 [("foo", .vint 42)] [] []
      intSchema false [] [("foo", .leafN (.vint 42) "integer" [.key "foo"] false)] "foo"
      rfl (by decide)

/-- C8: for a dict schema with distinct optional key names, an optional key
present in the raw input has its child built from the provided value; an
absent optional key whose schema declares a default has its child built from
the default (and so appears in the resolved output with the default's resolved
value); an absent optional key without a default is omitted from the built
dictionary entirely.  Concretely, `optional_keys \x7bfoo: \x7bdefault: 42,
type: int\x7d\x7d` with input `\x7b\x7d` resolves to `\x7bfoo: 42\x7d`. -/
theorem c8_optional_keys_semantics :
    (∀ (fuel : Nat) (dct : List (String × Value)) (required : List (String × Schema))
       (optional : List (String × Schema × Option Value)) (extra : Option Schema)
       (nb : Bool) (kp : KeyPath) (children : List (String × Node))
       (k : String) (ks : Schema) (dflt : Option Value) (v : Value),
       build_configuration_tree_node (fuel + 1) (.vdict dct)
           (.dictS required optional extra nb) kp = .ok (.dictN children) →
       (optional.map Prod.fst).Nodup → (k, ks, dflt) ∈ optional →
       dct.lookup k = some v →
       ∃ n, build_configuration_tree_node fuel v ks (kp ++ [.key k]) = .ok n ∧
         children.lookup k = some n) ∧
    (∀ (fuel : Nat) (dct : List (String × Value)) (required : List (String × Schema))
       (optional : List (String × Schema × Option Value)) (extra : Option Schema)
       (nb : Bool) (kp : KeyPath) (children : List (String × Node))
       (k : String) (ks : Schema) (d : Value),
       build_configuration_tree_node (fuel + 1) (.vdict dct)
           (.dictS required optional extra nb) kp = .ok (.dictN children) →
       (optional.map Prod.fst).Nodup → (k, ks, some d) ∈ optional →
       dct.lookup k = none →
       ∃ n, build_configuration_tree_node fuel d ks (kp ++ [.key k]) = .ok n ∧
         children.lookup k = some n) ∧
    (∀ (fuel : Nat) (dct : List (String × Value)) (required : List (String × Schema))
       (optional : List (String × Schema × Option Value)) (extra : Option Schema)
       (nb : Bool) (kp : KeyPath) (children : List (String × Node))
       (k : String) (ks : Schema),
       build_configuration_tree_node (fuel + 1) (.vdict dct)
           (.dictS required optional extra nb) kp = .ok (.dictN children) →
       (optional.map Prod.fst).Nodup → (k, ks, none) ∈ optional →
       dct.lookup k = none → k ∉ required.map Prod.fst →
       children.lookup k = none) ∧
    resolve 100 (.vdict []) optDefaultSchema = .ok (.vdict [("foo", .vint 42)]) := by
  have main : ∀ (fuel : Nat) (dct : List (String × Value)) (required : List (String × Schema))
      (optional : List (String × Schema × Option Value)) (extra : Option Schema)
      (nb : Bool) (kp : KeyPath) (children : List (String × Node))
      (k : String) (ks : Schema) (dflt : Option Value),
      build_configuration_tree_node (fuel + 1) (.vdict dct)
          (.dictS required optional extra nb) kp = .ok (.dictN children) →
      (optional.map Prod.fst).Nodup → (k, ks, dflt) ∈ optional →
      ((∃ v n, dct.lookup k = some v ∧
          build_configuration_tree_node fuel v ks (kp ++ [.key k]) = .ok n ∧
          children.lookup k = some n) ∨
       (∃ d n, dct.lookup k = none ∧ dflt = some d ∧
          build_configuration_tree_node fuel d ks (kp ++ [.key k]) = .ok n ∧
          children.lookup k = some n) ∨
       (dct.lookup k = none ∧ dflt = none ∧
          (k ∉ required.map Prod.fst → children.lookup k = none))) := by
    intro fuel dct required optional extra nb kp children k ks dflt hbuild hnodup hmem
    rw [buildNode_vdict_eq] at hbuild
    obtain ⟨ch1, ch2, ch3, h1, h2, h3, heq⟩ := dictNodeFromRaw_ok_inv _ _ _ _ _ hbuild
    injection heq with heq'
    subst heq'
    have hkopt : k ∈ optional.map Prod.fst := List.mem_map.mpr ⟨(k, ks, dflt), hmem, rfl⟩
    have hnotextra : k ∉ extraKeysOf dct (.dictS required optional extra nb) :=
      fun hx => (extraKeysOf_spec _ _ k hx).2.2 hkopt
    have hch3 : children.lookup k = ch2.lookup k :=
      populate_extra_lookup_notin _ _ _ _ _ _ h3 k hnotextra
    have hopt := (populate_optional_lookup _ optional dct kp ch1 ch2 h2 k).2
      hnodup ks dflt hmem
    rcases hopt with ⟨v, n, hv, hb, hl⟩ | ⟨d, n, hnone, hd, hb, hl⟩ | ⟨hnone, hd, hl⟩
    · exact Or.inl ⟨v, n, hv, hb, by rw [hch3, hl]⟩
    · exact Or.inr (Or.inl ⟨d, n, hnone, hd, hb, by rw [hch3, hl]⟩)
    · refine Or.inr (Or.inr ⟨hnone, hd, ?_⟩)
      intro hreq
      have hch1 : ch1.lookup k = ([] : List (String × Node)).lookup k :=
        (populate_required_lookup _ required dct kp [] ch1 h1 k).1 hreq
      rw [hch3, hl, hch1]
      rfl
  refine ⟨?_, ?_, ?_, rfl⟩
  · intro fuel dct required optional extra nb kp children k ks dflt v hbuild hnodup hmem hv
    rcases main fuel dct required optional extra nb kp children k ks dflt hbuild hnodup hmem
      with ⟨v', n, hv', hb, hl⟩ | ⟨d, n, hnone, _, _, _⟩ | ⟨hnone, _, _⟩
    · rw [hv] at hv'
      injection hv' with hvv
      subst hvv
      exact ⟨n, hb, hl⟩
    · rw [hv] at hnone; exact Option.noConfusion hnone
    · rw [hv] at hnone; exact Option.noConfusion hnone
  · intro fuel dct required optional extra nb kp children k ks d hbuild hnodup hmem hnone
    rcases main fuel dct required optional extra nb kp children k ks (some d) hbuild hnodup hmem
      with ⟨v', n, hv', _, _⟩ | ⟨d', n, _, hd, hb, hl⟩ | ⟨_, hd, _⟩
    · rw [hnone] at hv'; exact Option.noConfusion hv'
    · injection hd with hdd
      subst hdd
      exact ⟨n, hb, hl⟩
    · exact Option.noConfusion hd
  · intro fuel dct required optional extra nb kp children k ks hbuild hnodup hmem hnone hreq
    rcases main fuel dct required optional extra nb kp children k ks none hbuild hnodup hmem
      with ⟨v', n, hv', _, _⟩ | ⟨d', n, _, hd, _, _⟩ | ⟨_, _, hl⟩
    · rw [hnone] at hv'; exact Option.noConfusion hv'
    · exact Option.noConfusion hd
    · exact hl hreq

/-- C8 witness: the default clause applied to `optional_keys \x7bfoo:
\x7bdefault: 42, type: int\x7d\x7d` and the empty raw dictionary, whose built
child exists and is the integer leaf for 42; the present and omitted clauses
applied to one-key inputs. -/
theorem c8_witness :
    (∃ n, build_configuration_tree_node 99 (.vint 42) intSchema [.key "foo"] = .ok n ∧
       ([("foo", Node.leafN (.vint 42) "integer" [.key "foo"] false)]).lookup "foo" = some n) ∧
    (∃ n, build_configuration_tree_node 99 (.vint 7) intSchema [.key "foo"] = .ok n ∧
       ([("foo", Node.leafN (.vint 7) "integer" [.key "foo"] false)]).lookup "foo" = some n) ∧
    ([] : List (String × Node)).lookup "foo" = none := by
  refine ⟨?_, ?_, ?_⟩
  · exact c8_optional_keys_semantics.2.1 99 [] [] [("foo", intSchema, some (.vint 42))]
      none false [] [("foo", .leafN (.vint 42) "integer" [.key "foo"] false)]
      "foo" intSchema (.vint 42) rfl (by simp) (by simp) rfl
  · exact c8_optional_keys_semantics.1 99 [("foo", .vint 7)] []
      [("foo", intSchema, none)] none false []
      [("foo", .leafN (.vint 7) "integer" [.key "foo"] false)]
      "foo" intSchema none (.vint 7) rfl (by simp) (by simp) rfl
  · exact c8_optional_keys_semantics.2.2.1 99 [] [] [("foo", intSchema, none)]
      none false [] [] "foo" intSchema rfl (by simp) (by simp) rfl (by simp)

/-! ## Resolution-state lemmas -/

theorem getCell_setCell_self (st : RState) (kp : KeyPath) (c : Cell) :
    getCell (setCell st kp c) kp = some c :=
  lookup_assocSet_self st.cells kp c

theorem getCell_setCell_ne (st : RState) (kp kp' : KeyPath) (c : Cell) (h : kp' ≠ kp) :
    getCell (setCell st kp c) kp' = getCell st kp' :=
  lookup_assocSet_ne st.cells kp kp' c h

theorem parseCount_setCell (st : RState) (kp : KeyPath) (c : Cell) (kp' : KeyPath) :
    parseCountOf (setCell st kp c) kp' = parseCountOf st kp' := rfl

theorem getCell_bumpParse (st : RState) (kp kp' : KeyPath) :
    getCell (bumpParse st kp) kp' = getCell st kp' := rfl

theorem parseCount_bump_self (st : RState) (kp : KeyPath) :
    parseCountOf (bumpParse st kp) kp = parseCountOf st kp + 1 := by
  unfold parseCountOf bumpParse
  rw [lookup_assocSet_self]
  rfl

theorem parseCount_bump_ne (st : RState) (kp kp' : KeyPath) (h : kp' ≠ kp) :
    parseCountOf (bumpParse st kp) kp' = parseCountOf st kp' := by
  unfold parseCountOf bumpParse
  rw [lookup_assocSet_ne _ _ _ _ h]

theorem cellsMono_refl (st : RState) : cellsMono st st :=
  ⟨fun _ h => h, fun _ h => h⟩

theorem cellsMono_trans {a b c : RState} (h1 : cellsMono a b) (h2 : cellsMono b c) :
    cellsMono a c :=
  ⟨fun kp h => h2.1 kp (h1.1 kp h), fun kp h => h2.2 kp (h1.2 kp h)⟩

/-- The count of undiscovered leaves never increases along growing cells. -/
theorem filter_length_mono_of_imp {α : Type} (l : List α) (p q : α → Bool)
    (h : ∀ a, q a = true → p a = true) :
    (l.filter q).length ≤ (l.filter p).length := by
  induction l with
  | nil => simp
  | cons x xs ih =>
      by_cases hq : q x = true
      · simp [List.filter, hq, h x hq]
        omega
      · have hq' : q x = false := by simpa using hq
        by_cases hp : p x = true
        · simp [List.filter, hq', hp]
          omega
        · have hp' : p x = false := by simpa using hp
          simp [List.filter, hq', hp']
          exact ih

theorem filter_length_strict_of_witness {α : Type} [DecidableEq α] (l : List α)
    (p q : α → Bool) (h : ∀ a, q a = true → p a = true)
    (a : α) (ha : a ∈ l) (hpa : p a = true) (hqa : q a = false) :
    (l.filter q).length < (l.filter p).length := by
  induction l with
  | nil => simp at ha
  | cons x xs ih =>
      rcases List.mem_cons.mp ha with rfl | hmem
      · simp [List.filter, hpa, hqa]
        have := filter_length_mono_of_imp xs p q h
        omega
      · by_cases hq : q x = true
        · simp [List.filter, hq, h x hq]
          exact ih hmem
        · have hq' : q x = false := by simpa using hq
          by_cases hp : p x = true
          · simp [List.filter, hq', hp]
            have := ih hmem
            omega
          · have hp' : p x = false := by simpa using hp
            simp [List.filter, hq', hp']
            exact ih hmem

/-- Growing the cell domain cannot increase the undiscovered count. -/
theorem undisc_mono (root : Node) {st st' : RState} (h : cellsMono st st') :
    undisc root st' ≤ undisc root st := by
  apply filter_length_mono_of_imp
  intro kp hq
  simp only [Option.isNone_iff_eq_none] at hq ⊢
  by_contra hne
  have : (getCell st kp).isSome := by
    cases hcell : getCell st kp with
    | none => exact absurd hcell hne
    | some c => simp
  have := h.1 kp this
  rw [hq] at this
  exact Bool.noConfusion this

/-- Discovering a leaf keypath of the tree strictly decreases the
undiscovered count. -/
theorem undisc_strict (root : Node) (st : RState) (kp : KeyPath) (c : Cell)
    (hmem : kp ∈ leafKeypaths root) (hnone : getCell st kp = none) :
    undisc root (setCell st kp c) < undisc root st := by
  apply filter_length_strict_of_witness _ _ _ _ kp hmem
  · simp [hnone]
  · simp [getCell_setCell_self]
  · intro kp' hq
    simp only [Option.isNone_iff_eq_none] at hq ⊢
    by_cases hk : kp' = kp
    · subst hk
      rw [getCell_setCell_self] at hq
      exact Option.noConfusion hq
    · rw [getCell_setCell_ne _ _ _ _ hk] at hq
      exact hq

/-! ## State evolution along successful resolution -/

theorem resolvePost_refl (st : RState) : resolvePost st st :=
  ⟨cellsMono_refl st, id⟩

theorem resolvePost_trans {a b c : RState} (h1 : resolvePost a b) (h2 : resolvePost b c) :
    resolvePost a c :=
  ⟨cellsMono_trans h1.1 h2.1, fun h => h2.2 (h1.2 h)⟩

/-- A successful `_safely` is a successful underlying action. -/
theorem safely_ok_inv {α : Type} (kp : KeyPath) (x : Except Exc α) (a : α)
    (h : safely kp x = .ok a) : x = .ok a := by
  cases x with
  | ok b => simpa [safely] using h
  | error e => simp [safely] at h

theorem retrieve_from_root_ok_post (rc : ResolveCont)
    (hrc : ∀ n st v st', rc n st = .ok (v, st') → resolvePost st st')
    (r : Resolver) (exploded : List PathComp) (st : RState) (v : Value) (st' : RState)
    (h : retrieve_from_root rc r exploded st = .ok (v, st')) : resolvePost st st' := by
  unfold retrieve_from_root at h
  split at h
  · split at h
    · exact Except.noConfusion h
    · exact Except.noConfusion h
  · exact Except.noConfusion h
  · exact hrc _ _ _ _ h

theorem retrieveSubstitution_ok_post (rc : ResolveCont)
    (hrc : ∀ n st v st', rc n st = .ok (v, st') → resolvePost st st')
    (r : Resolver) (exploded : List PathComp) (st : RState) (v : Value) (st' : RState)
    (h : retrieveSubstitution rc r exploded st = .ok (v, st')) : resolvePost st st' := by
  unfold retrieveSubstitution at h
  split at h
  · exact retrieve_from_root_ok_post rc hrc r _ st v st' h
  · split at h
    · exact Except.noConfusion h
    · cases h
      exact resolvePost_refl st

theorem interpolate_ok_post (rc : ResolveCont)
    (hrc : ∀ n st v st', rc n st = .ok (v, st') → resolvePost st st')
    (r : Resolver) (s : Value) (ref : String) (st : RState) (v : Value) (st' : RState)
    (h : Resolver.interpolate rc r s ref st = .ok (v, st')) : resolvePost st st' := by
  unfold Resolver.interpolate at h
  split at h
  · exact Except.noConfusion h
  · split at h
    · exact Except.noConfusion h
    · rename_i substitution st1 heq
      have hst1 : resolvePost st st1 :=
        retrieveSubstitution_ok_post rc hrc r _ st substitution st1 heq
      split at h
      · split at h
        · exact Except.noConfusion h
        · cases h
          exact hst1
      · exact Except.noConfusion h

theorem interpolateAll_ok_post (rc : ResolveCont)
    (hrc : ∀ n st v st', rc n st = .ok (v, st') → resolvePost st st')
    (r : Resolver) (kp : KeyPath) :
    ∀ (refs : List String) (s : Value) (st : RState) (v : Value) (st' : RState),
    interpolateAll rc r kp refs s st = .ok (v, st') → resolvePost st st' := by
  intro refs
  induction refs with
  | nil =>
      intro s st v st' h
      unfold interpolateAll at h
      cases h
      exact resolvePost_refl st
  | cons ref rest ih =>
      intro s st v st' h
      unfold interpolateAll at h
      split at h
      · exact Except.noConfusion h
      · rename_i s1 st1 heq
        have h1 := interpolate_ok_post rc hrc r s ref st s1 st1 (safely_ok_inv kp _ _ heq)
        exact resolvePost_trans h1 (ih s1 st1 v st' h)

theorem resolveDictChildren_ok_post (rc : ResolveCont)
    (hrc : ∀ n st v st', rc n st = .ok (v, st') → resolvePost st st') :
    ∀ (children : List (String × Node)) (st : RState) (vs : List (String × Value))
      (st' : RState),
    resolveDictChildren rc children st = .ok (vs, st') → resolvePost st st' := by
  intro children
  induction children with
  | nil =>
      intro st vs st' h
      unfold resolveDictChildren at h
      cases h
      exact resolvePost_refl st
  | cons kn rest ih =>
      intro st vs st' h
      obtain ⟨k, n⟩ := kn
      unfold resolveDictChildren at h
      split at h
      · exact Except.noConfusion h
      · rename_i v1 st1 heq
        split at h
        · exact Except.noConfusion h
        · rename_i vs1 st2 heq2
          cases h
          exact resolvePost_trans (hrc _ _ _ _ heq) (ih st1 vs1 _ heq2)

theorem resolveListChildren_ok_post (rc : ResolveCont)
    (hrc : ∀ n st v st', rc n st = .ok (v, st') → resolvePost st st') :
    ∀ (children : List Node) (st : RState) (vs : List Value) (st' : RState),
    resolveListChildren rc children st = .ok (vs, st') → resolvePost st st' := by
  intro children
  induction children with
  | nil =>
      intro st vs st' h
      unfold resolveListChildren at h
      cases h
      exact resolvePost_refl st
  | cons n rest ih =>
      intro st vs st' h
      unfold resolveListChildren at h
      split at h
      · exact Except.noConfusion h
      · rename_i v1 st1 heq
        split at h
        · exact Except.noConfusion h
        · rename_i vs1 st2 heq2
          cases h
          exact resolvePost_trans (hrc _ _ _ _ heq) (ih st1 vs1 _ heq2)

theorem pcInv_count_zero_of_not_resolved (st : RState) (kp : KeyPath) (hinv : pcInv st)
    (h : ∀ w, getCell st kp ≠ some (.resolvedV w)) : parseCountOf st kp = 0 := by
  by_contra hne
  obtain ⟨w, hw⟩ := (hinv kp).2 (Nat.one_le_iff_ne_zero.mpr hne)
  exact h w hw

/-- Setting a pending cell for a leaf whose parser has not run preserves the
counting invariant. -/
theorem pcInv_setPending (st : RState) (kp : KeyPath) (hinv : pcInv st)
    (hzero : parseCountOf st kp = 0) : pcInv (setCell st kp .pending) := by
  intro kp'
  rw [parseCount_setCell]
  by_cases hk : kp' = kp
  · subst hk
    rw [hzero]
    exact ⟨Nat.zero_le 1, fun h => absurd h (by simp)⟩
  · rw [getCell_setCell_ne _ _ _ _ hk]
    exact hinv kp'

/-- Storing a resolved value (after at most one bump of the leaf's counter
from zero) preserves the counting invariant. -/
theorem pcInv_finish (st : RState) (kp : KeyPath) (w : Value) (hinv : pcInv st)
    (hzero : parseCountOf st kp = 0) :
    pcInv (setCell (bumpParse st kp) kp (.resolvedV w)) := by
  intro kp'
  by_cases hk : kp' = kp
  · subst hk
    rw [parseCount_setCell, parseCount_bump_self, hzero, getCell_setCell_self]
    exact ⟨Nat.le_refl 1, fun _ => ⟨w, rfl⟩⟩
  · rw [parseCount_setCell, parseCount_bump_ne _ _ _ hk, getCell_setCell_ne _ _ _ _ hk,
        getCell_bumpParse]
    exact hinv kp'

/-- Storing a resolved value without running the parser preserves the
counting invariant. -/
theorem pcInv_finish_nobump (st : RState) (kp : KeyPath) (w : Value) (hinv : pcInv st)
    (hzero : parseCountOf st kp = 0) : pcInv (setCell st kp (.resolvedV w)) := by
  intro kp'
  by_cases hk : kp' = kp
  · subst hk
    rw [parseCount_setCell, hzero, getCell_setCell_self]
    exact ⟨Nat.zero_le 1, fun _ => ⟨w, rfl⟩⟩
  · rw [parseCount_setCell, getCell_setCell_ne _ _ _ _ hk]
    exact hinv kp'

/-- The cells evolution of the no-cell leaf path: pending is set for the
leaf, some resolution happens in between, and the leaf's cell ends resolved. -/
theorem cellsMono_leaf_path (st st2 : RState) (kp : KeyPath) (w : Value)
    (hnone : getCell st kp = none)
    (hmid : cellsMono (setCell st kp .pending) st2) :
    cellsMono st (setCell st2 kp (.resolvedV w)) := by
  constructor
  · intro kp' hs
    by_cases hk : kp' = kp
    · subst hk
      rw [getCell_setCell_self]
      simp
    · rw [getCell_setCell_ne _ _ _ _ hk]
      apply hmid.1
      rw [getCell_setCell_ne _ _ _ _ hk]
      exact hs
  · intro kp' hp
    have hk : kp' ≠ kp := fun e => by rw [e, hnone] at hp; exact Option.noConfusion hp
    rw [getCell_setCell_ne _ _ _ _ hk]
    apply hmid.2
    rw [getCell_setCell_ne _ _ _ _ hk]
    exact hp

theorem leafResolve_ok_post (rc : ResolveCont)
    (hrc : ∀ n st v st', rc n st = .ok (v, st') → resolvePost st st')
    (r : Resolver) (raw : Value) (t : String) (kp : KeyPath) (nb : Bool)
    (st : RState) (v : Value) (st' : RState)
    (h : leafResolve rc r raw t kp nb st = .ok (v, st')) : resolvePost st st' := by
  unfold leafResolve at h
  match hcell : getCell st kp with
  | some .pending =>
      simp only [hcell] at h
      exact Except.noConfusion h
  | some (.resolvedV w) =>
      simp only [hcell] at h
      cases h
      exact resolvePost_refl st
  | none =>
      simp only [hcell] at h
      match hI : interpolateAll rc r kp (references raw) raw (setCell st kp .pending) with
      | .error e =>
          simp only [hI] at h
          exact Except.noConfusion h
      | .ok (s, st2) =>
          simp only [hI] at h
          have post1 : resolvePost (setCell st kp .pending) st2 :=
            interpolateAll_ok_post rc hrc r kp (references raw) raw _ s st2 hI
          have hpend2 : getCell st2 kp = some .pending :=
            post1.1.2 kp (getCell_setCell_self st kp .pending)
          have hinvzero : pcInv st → parseCountOf st2 kp = 0 := by
            intro hinv
            have hz : parseCountOf st kp = 0 :=
              pcInv_count_zero_of_not_resolved st kp hinv
                (fun w hw => by rw [hcell] at hw; exact Option.noConfusion hw)
            have hinv2 : pcInv st2 := post1.2 (pcInv_setPending st kp hinv hz)
            exact pcInv_count_zero_of_not_resolved st2 kp hinv2
              (fun w hw => by
                rw [hpend2] at hw
                exact Cell.noConfusion (Option.some.inj hw))
          by_cases hnull : (nb && raw.isNone) = true
          · rw [if_pos hnull] at h
            cases h
            constructor
            · exact cellsMono_leaf_path st st2 kp .vnone hcell post1.1
            · intro hinv
              have hz : parseCountOf st kp = 0 :=
                pcInv_count_zero_of_not_resolved st kp hinv
                  (fun w hw => by rw [hcell] at hw; exact Option.noConfusion hw)
              exact pcInv_finish_nobump st2 kp .vnone
                (post1.2 (pcInv_setPending st kp hinv hz)) (hinvzero hinv)
          · rw [if_neg hnull] at h
            match hp : safely kp (Resolver.parse r s t) with
            | .error e =>
                simp only [hp] at h
                exact Except.noConfusion h
            | .ok pv =>
                simp only [hp] at h
                cases h
                constructor
                · have : cellsMono (setCell st kp .pending) (bumpParse st2 kp) := by
                    refine cellsMono_trans post1.1 ⟨fun kp' hs => ?_, fun kp' hp' => ?_⟩
                    · rw [getCell_bumpParse]; exact hs
                    · rw [getCell_bumpParse]; exact hp'
                  exact cellsMono_leaf_path st (bumpParse st2 kp) kp _ hcell this
                · intro hinv
                  have hz : parseCountOf st kp = 0 :=
                    pcInv_count_zero_of_not_resolved st kp hinv
                      (fun w hw => by rw [hcell] at hw; exact Option.noConfusion hw)
                  exact pcInv_finish st2 kp _
                    (post1.2 (pcInv_setPending st kp hinv hz)) (hinvzero hinv)

/-- Master state-evolution lemma: a successful `resolveNode` call grows the
cell domain, keeps pending cells pending, and preserves the parser-counting
invariant. -/
theorem resolveNode_ok_post (r : Resolver) :
    ∀ (fuel : Nat) (node : Node) (st : RState) (v : Value) (st' : RState),
    resolveNode r fuel node st = .ok (v, st') → resolvePost st st' := by
  intro fuel
  induction fuel with
  | zero => intro node st v st' h; exact Except.noConfusion h
  | succ f ih =>
      intro node st v st' h
      cases node with
      | dictN children =>
          change (match resolveDictChildren (resolveNode r f) children st with
                  | .error e => (.error e : Except Exc (Value × RState))
                  | .ok (vs, st1) => .ok (.vdict vs, st1)) = .ok (v, st') at h
          split at h
          · exact Except.noConfusion h
          · rename_i vs st1 heq
            cases h
            exact resolveDictChildren_ok_post _ ih children st vs _ heq
      | listN children =>
          change (match resolveListChildren (resolveNode r f) children st with
                  | .error e => (.error e : Except Exc (Value × RState))
                  | .ok (vs, st1) => .ok (.vlist vs, st1)) = .ok (v, st') at h
          split at h
          · exact Except.noConfusion h
          · rename_i vs st1 heq
            cases h
            exact resolveListChildren_ok_post _ ih children st vs _ heq
      | leafN raw t kp nb =>
          exact leafResolve_ok_post _ ih r raw t kp nb st v st' h

/-- A successful leaf resolution leaves the leaf's cell holding exactly the
returned value. -/
theorem leafResolve_sets_cell (rc : ResolveCont) (r : Resolver)
    (raw : Value) (t : String) (kp : KeyPath) (nb : Bool)
    (st : RState) (v : Value) (st' : RState)
    (h : leafResolve rc r raw t kp nb st = .ok (v, st')) :
    getCell st' kp = some (.resolvedV v) := by
  unfold leafResolve at h
  match hcell : getCell st kp with
  | some .pending =>
      simp only [hcell] at h
      exact Except.noConfusion h
  | some (.resolvedV w) =>
      simp only [hcell] at h
      cases h
      exact hcell
  | none =>
      simp only [hcell] at h
      match hI : interpolateAll rc r kp (references raw) raw (setCell st kp .pending) with
      | .error e =>
          simp only [hI] at h
          exact Except.noConfusion h
      | .ok (s, st2) =>
          simp only [hI] at h
          by_cases hnull : (nb && raw.isNone) = true
          · rw [if_pos hnull] at h
            cases h
            exact getCell_setCell_self _ _ _
          · rw [if_neg hnull] at h
            match hp : safely kp (Resolver.parse r s t) with
            | .error e =>
                simp only [hp] at h
                exact Except.noConfusion h
            | .ok pv =>
                simp only [hp] at h
                cases h
                exact getCell_setCell_self _ _ _

/-- A leaf whose cell already holds a resolved value resolves to it, with the
state unchanged — the memoized return of `_LeafNode.resolve`. -/
theorem leafResolve_memo (rc : ResolveCont) (r : Resolver)
    (raw : Value) (t : String) (kp : KeyPath) (nb : Bool)
    (st : RState) (v : Value) (h : getCell st kp = some (.resolvedV v)) :
    leafResolve rc r raw t kp nb st = .ok (v, st) := by
  unfold leafResolve
  rw [h]

/-- C2: within one `resolve` call, resolving the same leaf twice yields the
identical value both times — a successful leaf resolution stores the value in
the leaf's cell, and any later resolution of that leaf (any fuel, any
continuation) returns the stored value without touching the state; along any
successful resolution from a state satisfying the counting invariant (as the
initial state does), each leaf's parser has run at most once.  Concretely,
with `b` and `c` both referencing `a`, `a`'s parser runs exactly once and `b`
and `c` both observe `a`'s value 2. -/
theorem c2_memoized_leaf_resolution :
    (∀ (r : Resolver) (fuel fuel' : Nat) (raw : Value) (t : String) (kp : KeyPath)
       (nb : Bool) (st : RState) (v : Value) (st' : RState),
       resolveNode r (fuel + 1) (.leafN raw t kp nb) st = .ok (v, st') →
       resolveNode r (fuel' + 1) (.leafN raw t kp nb) st' = .ok (v, st')) ∧
    (∀ (r : Resolver) (fuel : Nat) (node : Node) (st : RState) (v : Value) (st' : RState),
       pcInv st → resolveNode r fuel node st = .ok (v, st') → pcInv st') ∧
    pcInv RState.initial ∧
    (resolveNode diamondResolver 100 diamondTree RState.initial
       = .ok (.vdict [("a", .vint 2), ("b", .vstr "2"), ("c", .vstr "2")],
              diamondFinalState) ∧
     parseCountOf diamondFinalState [.key "a"] = 1 ∧
     parseCountOf diamondFinalState [.key "b"] = 1 ∧
     parseCountOf diamondFinalState [.key "c"] = 1) := by
  refine ⟨?_, ?_, ?_, rfl, rfl, rfl, rfl⟩
  · intro r fuel fuel' raw t kp nb st v st' h
    have hcell : getCell st' kp = some (.resolvedV v) :=
      leafResolve_sets_cell (resolveNode r fuel) r raw t kp nb st v st' h
    exact leafResolve_memo (resolveNode r fuel') r raw t kp nb st' v hcell
  · intro r fuel node st v st' hinv h
    exact (resolveNode_ok_post r fuel node st v st' h).2 hinv
  · intro kp
    refine ⟨?_, ?_⟩
    · show parseCountOf RState.initial kp ≤ 1
      simp [parseCountOf, RState.initial]
    · intro hge
      simp [parseCountOf, RState.initial] at hge

/-- C2 witness: the memoized-return clause applied to the diamond tree's leaf
`a` — its first resolution from the empty state parses `"1 + 1"` to 2, and a
second resolution from the resulting state returns 2 again with the state
unchanged; the invariant clause applied to the full diamond run. -/
theorem c2_witness :
    resolveNode diamondResolver 6
        (.leafN (.vstr "1 + 1") "integer" [.key "a"] false)
        ⟨[([.key "a"], .resolvedV (.vint 2))], [([.key "a"], 1)]⟩
      = .ok (.vint 2, ⟨[([.key "a"], .resolvedV (.vint 2))], [([.key "a"], 1)]⟩) ∧
    pcInv diamondFinalState := by
  constructor
  · exact c2_memoized_leaf_resolution.1 diamondResolver 4 5 (.vstr "1 + 1") "integer"
      [.key "a"] false RState.initial (.vint 2)
      ⟨[([.key "a"], .resolvedV (.vint 2))], [([.key "a"], 1)]⟩ rfl
  · exact c2_memoized_leaf_resolution.2.1 diamondResolver 100 diamondTree RState.initial
      _ diamondFinalState c2_memoized_leaf_resolution.2.2.1
      c2_memoized_leaf_resolution.2.2.2.1

/-! ## Reachability, sizes and leaf keypaths of the configuration tree -/

theorem lookup_mem {κ α : Type} [BEq κ] [LawfulBEq κ] :
    ∀ (xs : List (κ × α)) (k : κ) (v : α), xs.lookup k = some v → (k, v) ∈ xs := by
  intro xs
  induction xs with
  | nil => intro k v h; simp [List.lookup] at h
  | cons kv rest ih =>
      intro k v h
      obtain ⟨k0, v0⟩ := kv
      by_cases hk : k = k0
      · subst hk
        simp [List.lookup] at h
        simp [h]
      · have hkk : (k == k0) = false := beq_eq_false_iff_ne.mpr hk
        simp only [List.lookup, hkk] at h
        exact List.mem_cons_of_mem _ (ih k v h)

theorem nodeGetItem_step (n : Node) (c : PathComp) (m : Node)
    (h : nodeGetItem n c = .ok m) : Step n m := by
  cases n with
  | dictN children =>
      cases c with
      | key s =>
          unfold nodeGetItem at h
          match hl : children.lookup s with
          | none => simp only [hl] at h; exact Except.noConfusion h
          | some n' =>
              simp only [hl] at h
              cases h
              exact Step.dictChild (lookup_mem children s m hl)
      | idx i => simp [nodeGetItem] at h
  | listN children =>
      cases c with
      | idx i =>
          simp only [nodeGetItem] at h
          by_cases hi : i < children.length
          · rw [dif_pos hi] at h
            cases h
            exact Step.listChild (List.get_mem children i hi)
          · rw [dif_neg hi] at h
            exact Except.noConfusion h
      | key s => simp [nodeGetItem] at h
  | leafN raw t kp nb => simp [nodeGetItem] at h

theorem get_path_node_reach :
    ∀ (path : List PathComp) (n m : Node), get_path_node n path = .ok m → Reach n m
  | [], n, m => by intro h; simp [get_path_node] at h
  | [c], n, m => by
      intro h
      exact Relation.ReflTransGen.single (nodeGetItem_step n c m h)
  | c :: c2 :: rest, n, m => by
      intro h
      unfold get_path_node at h
      match hg : nodeGetItem n c with
      | .error e => simp only [hg] at h; exact Except.noConfusion h
      | .ok next =>
          simp only [hg] at h
          exact Relation.ReflTransGen.head (nodeGetItem_step n c next hg)
            (get_path_node_reach (c2 :: rest) next m h)

theorem nodeSizeDict_child :
    ∀ (children : List (String × Node)) (k : String) (n : Node),
      (k, n) ∈ children → nodeSize n ≤ nodeSizeDict children := by
  intro children
  induction children with
  | nil => intro k n h; simp at h
  | cons kv rest ih =>
      intro k n h
      obtain ⟨k0, n0⟩ := kv
      rcases List.mem_cons.mp h with heq | hmem
      · cases heq
        simp only [nodeSizeDict]
        exact Nat.le_add_right _ _
      · calc nodeSize n ≤ nodeSizeDict rest := ih _ _ hmem
          _ ≤ nodeSize n0 + nodeSizeDict rest := Nat.le_add_left _ _
          _ = nodeSizeDict ((k0, n0) :: rest) := by simp [nodeSizeDict]

theorem nodeSizeList_child :
    ∀ (children : List Node) (n : Node), n ∈ children → nodeSize n ≤ nodeSizeList children := by
  intro children
  induction children with
  | nil => intro n h; simp at h
  | cons n0 rest ih =>
      intro n h
      rcases List.mem_cons.mp h with heq | hmem
      · cases heq
        simp only [nodeSizeList]
        exact Nat.le_add_right _ _
      · calc nodeSize n ≤ nodeSizeList rest := ih _ hmem
          _ ≤ nodeSize n0 + nodeSizeList rest := Nat.le_add_left _ _
          _ = nodeSizeList (n0 :: rest) := by simp [nodeSizeList]

theorem step_size_lt {n m : Node} (h : Step n m) : nodeSize m < nodeSize n := by
  cases h with
  | dictChild hmem =>
      rename_i children k
      have h1 : nodeSize m ≤ nodeSizeDict children := nodeSizeDict_child _ _ _ hmem
      have h2 : nodeSize (Node.dictN children) = 1 + nodeSizeDict children := rfl
      omega
  | listChild hmem =>
      rename_i children
      have h1 : nodeSize m ≤ nodeSizeList children := nodeSizeList_child _ _ hmem
      have h2 : nodeSize (Node.listN children) = 1 + nodeSizeList children := rfl
      omega

theorem reach_size_le {n m : Node} (h : Reach n m) : nodeSize m ≤ nodeSize n := by
  induction h with
  | refl => exact Nat.le_refl _
  | tail _ hstep ih => exact Nat.le_trans (Nat.le_of_lt (step_size_lt hstep)) ih

theorem nodeSize_pos (n : Node) : 1 ≤ nodeSize n := by
  cases n <;> simp [nodeSize]

theorem leafKeypathsDict_child :
    ∀ (children : List (String × Node)) (k : String) (n : Node),
      (k, n) ∈ children → ∀ kp ∈ leafKeypaths n, kp ∈ leafKeypathsDict children := by
  intro children
  induction children with
  | nil => intro k n h; simp at h
  | cons kv rest ih =>
      intro k n h kp hkp
      obtain ⟨k0, n0⟩ := kv
      rcases List.mem_cons.mp h with heq | hmem
      · cases heq
        simp [leafKeypathsDict]
        exact Or.inl hkp
      · simp [leafKeypathsDict]
        exact Or.inr (ih _ _ hmem kp hkp)

theorem leafKeypathsList_child :
    ∀ (children : List Node) (n : Node),
      n ∈ children → ∀ kp ∈ leafKeypaths n, kp ∈ leafKeypathsList children := by
  intro children
  induction children with
  | nil => intro n h; simp at h
  | cons n0 rest ih =>
      intro n h kp hkp
      rcases List.mem_cons.mp h with heq | hmem
      · cases heq
        simp [leafKeypathsList]
        exact Or.inl hkp
      · simp [leafKeypathsList]
        exact Or.inr (ih _ hmem kp hkp)

theorem step_leafKeypaths {n m : Node} (h : Step n m) :
    ∀ kp ∈ leafKeypaths m, kp ∈ leafKeypaths n := by
  cases h with
  | dictChild hmem =>
      intro kp hkp
      show kp ∈ leafKeypaths (.dictN _)
      rw [show leafKeypaths (.dictN _) = leafKeypathsDict _ from rfl]
      exact leafKeypathsDict_child _ _ _ hmem kp hkp
  | listChild hmem =>
      intro kp hkp
      show kp ∈ leafKeypaths (.listN _)
      rw [show leafKeypaths (.listN _) = leafKeypathsList _ from rfl]
      exact leafKeypathsList_child _ _ hmem kp hkp

theorem reach_leafKeypaths {n m : Node} (h : Reach n m) :
    ∀ kp ∈ leafKeypaths m, kp ∈ leafKeypaths n := by
  induction h with
  | refl => exact fun kp hkp => hkp
  | tail _ hstep ih => exact fun kp hkp => ih kp (step_leafKeypaths hstep kp hkp)

/-- The keypath of a reachable leaf is among the root's leaf keypaths. -/
theorem reach_leaf_kp_mem {root : Node} {raw : Value} {t : String} {kp : KeyPath}
    {nb : Bool} (h : Reach root (.leafN raw t kp nb)) : kp ∈ leafKeypaths root :=
  reach_leafKeypaths h kp (by simp [leafKeypaths])

/-! ## Resolution never exhausts the stack: fuel bounds -/

theorem nodeGetItem_not_fuelOut (n : Node) (c : PathComp) :
    nodeGetItem n c ≠ .error .fuelOut := by
  cases n with
  | dictN children =>
      cases c with
      | key s =>
          simp only [nodeGetItem]
          cases children.lookup s <;> simp
      | idx i => simp [nodeGetItem]
  | listN children =>
      cases c with
      | idx i =>
          simp only [nodeGetItem]
          by_cases hi : i < children.length
          · rw [dif_pos hi]; simp
          · rw [dif_neg hi]; simp
      | key s => simp [nodeGetItem]
  | leafN raw t kp nb => simp [nodeGetItem]

theorem get_path_node_not_fuelOut :
    ∀ (path : List PathComp) (n : Node), get_path_node n path ≠ .error .fuelOut
  | [], n => by simp [get_path_node]
  | [c], n => by
      show nodeGetItem n c ≠ .error .fuelOut
      exact nodeGetItem_not_fuelOut n c
  | c :: c2 :: rest, n => by
      intro h
      unfold get_path_node at h
      match hg : nodeGetItem n c with
      | .error e =>
          simp only [hg] at h
          injection h with h'
          rw [h'] at hg
          exact nodeGetItem_not_fuelOut n c hg
      | .ok next =>
          simp only [hg] at h
          exact get_path_node_not_fuelOut (c2 :: rest) next h

theorem valueGetItem_not_fuelOut (v : Value) (c : PathComp) :
    valueGetItem v c ≠ .error .fuelOut := by
  cases v with
  | vdict entries =>
      cases c with
      | key s =>
          simp only [valueGetItem]
          cases entries.lookup s <;> simp
      | idx i => simp [valueGetItem]
  | vlist elems =>
      cases c with
      | idx i =>
          simp only [valueGetItem]
          by_cases hi : i < elems.length
          · rw [dif_pos hi]; simp
          · rw [dif_neg hi]; simp
      | key s => simp [valueGetItem]
  | vstr s =>
      cases c with
      | idx i =>
          simp only [valueGetItem]
          by_cases hi : i < s.data.length
          · rw [dif_pos hi]; simp
          · rw [dif_neg hi]; simp
      | key s2 => simp [valueGetItem]
  | vnone => cases c <;> simp [valueGetItem]
  | vbool b => cases c <;> simp [valueGetItem]
  | vint n => cases c <;> simp [valueGetItem]

theorem get_path_value_not_fuelOut :
    ∀ (path : List PathComp) (v : Value), get_path_value v path ≠ .error .fuelOut
  | [], v => by simp [get_path_value]
  | [c], v => by
      show valueGetItem v c ≠ .error .fuelOut
      exact valueGetItem_not_fuelOut v c
  | c :: c2 :: rest, v => by
      intro h
      unfold get_path_value at h
      match hg : valueGetItem v c with
      | .error e =>
          simp only [hg] at h
          injection h with h'
          rw [h'] at hg
          exact valueGetItem_not_fuelOut v c hg
      | .ok next =>
          simp only [hg] at h
          exact get_path_value_not_fuelOut (c2 :: rest) next h

theorem safely_not_fuelOut {α : Type} (kp : KeyPath) (x : Except Exc α)
    (h : x ≠ .error .fuelOut) : safely kp x ≠ .error .fuelOut := by
  cases x with
  | ok a => simp [safely]
  | error e =>
      unfold safely
      by_cases hl : e.isLibError = true
      · simp [hl]
      · have he : e ≠ .fuelOut := fun hee => h (by rw [hee])
        simp only [hl]
        simpa using he

theorem retrieve_from_external_not_fuelOut (r : Resolver) (exploded : List PathComp) :
    retrieve_from_external_variables r exploded ≠ .error .fuelOut := by
  intro h
  unfold retrieve_from_external_variables at h
  split at h
  · split at h
    · rename_i e heq
      injection h with h'
      rw [h'] at heq
      exact Exc.noConfusion (dottedJoin_error exploded .fuelOut heq)
    · simp at h
  · rename_i e heq h2
    injection h with h'
    rw [h'] at h2
    exact get_path_value_not_fuelOut exploded r.external_variables h2
  · simp at h

theorem retrieve_from_root_not_fuelOut (rc : ResolveCont) (r : Resolver) (U : Nat)
    (hrc : ∀ n st2, Reach r.root n → undisc r.root st2 ≤ U → rc n st2 ≠ .error .fuelOut)
    (exploded : List PathComp) (st : RState) (hst : undisc r.root st ≤ U) :
    retrieve_from_root rc r exploded st ≠ .error .fuelOut := by
  intro h
  unfold retrieve_from_root at h
  split at h
  · split at h
    · rename_i e heq
      injection h with h'
      rw [h'] at heq
      exact Exc.noConfusion (dottedJoin_error exploded .fuelOut heq)
    · simp at h
  · rename_i e heq h2
    injection h with h'
    rw [h'] at h2
    exact get_path_node_not_fuelOut exploded.tail r.root h2
  · rename_i node heq
    exact hrc node st (get_path_node_reach exploded.tail r.root node heq) hst h

theorem retrieveSubstitution_not_fuelOut (rc : ResolveCont) (r : Resolver) (U : Nat)
    (hrc : ∀ n st2, Reach r.root n → undisc r.root st2 ≤ U → rc n st2 ≠ .error .fuelOut)
    (exploded : List PathComp) (st : RState) (hst : undisc r.root st ≤ U) :
    retrieveSubstitution rc r exploded st ≠ .error .fuelOut := by
  intro h
  unfold retrieveSubstitution at h
  split at h
  · exact retrieve_from_root_not_fuelOut rc r U hrc exploded st hst h
  · split at h
    · rename_i e heq
      injection h with h'
      rw [h'] at heq
      exact retrieve_from_external_not_fuelOut r exploded heq
    · simp at h

theorem interpolate_not_fuelOut (rc : ResolveCont) (r : Resolver) (U : Nat)
    (hrc : ∀ n st2, Reach r.root n → undisc r.root st2 ≤ U → rc n st2 ≠ .error .fuelOut)
    (s : Value) (ref : String) (st : RState) (hst : undisc r.root st ≤ U) :
    Resolver.interpolate rc r s ref st ≠ .error .fuelOut := by
  intro h
  unfold Resolver.interpolate at h
  split at h
  · rename_i e heq
    injection h with h'
    rw [h'] at heq
    obtain ⟨m, hm⟩ := explode_error ref .fuelOut heq
    exact Exc.noConfusion hm
  · split at h
    · rename_i e heq
      injection h with h'
      rw [h'] at heq
      exact retrieveSubstitution_not_fuelOut rc r U hrc _ st hst heq
    · split at h
      · split at h
        · rename_i e heq
          injection h with h'
          rw [h'] at heq
          exact Exc.noConfusion (reSub_error _ _ _ .fuelOut heq)
        · simp at h
      · simp at h

theorem interpolateAll_not_fuelOut (rc : ResolveCont) (r : Resolver) (U : Nat)
    (hrc : ∀ n st2, Reach r.root n → undisc r.root st2 ≤ U → rc n st2 ≠ .error .fuelOut)
    (hpost : ∀ n st v st', rc n st = .ok (v, st') → resolvePost st st')
    (kp : KeyPath) :
    ∀ (refs : List String) (s : Value) (st : RState), undisc r.root st ≤ U →
    interpolateAll rc r kp refs s st ≠ .error .fuelOut := by
  intro refs
  induction refs with
  | nil => intro s st _; simp [interpolateAll]
  | cons ref rest ih =>
      intro s st hst
      unfold interpolateAll
      match hs : safely kp (Resolver.interpolate rc r s ref st) with
      | .error e =>
          intro h
          injection h with h'
          rw [h'] at hs
          exact safely_not_fuelOut kp _ (interpolate_not_fuelOut rc r U hrc s ref st hst) hs
      | .ok (s1, st1) =>
          have hint : Resolver.interpolate rc r s ref st = .ok (s1, st1) :=
            safely_ok_inv kp _ _ hs
          have hmono := (interpolate_ok_post rc hpost r s ref st s1 st1 hint).1
          exact ih s1 st1 (Nat.le_trans (undisc_mono r.root hmono) hst)

theorem resolveDictChildren_not_fuelOut (rc : ResolveCont) (r : Resolver) (U : Nat)
    (hpost : ∀ n st v st', rc n st = .ok (v, st') → resolvePost st st') :
    ∀ (children : List (String × Node)) (st : RState),
    (∀ k n, (k, n) ∈ children → ∀ st2, undisc r.root st2 ≤ U → rc n st2 ≠ .error .fuelOut) →
    undisc r.root st ≤ U →
    resolveDictChildren rc children st ≠ .error .fuelOut := by
  intro children
  induction children with
  | nil => intro st _ _; simp [resolveDictChildren]
  | cons kn rest ih =>
      intro st hch hst h
      obtain ⟨k, n⟩ := kn
      unfold resolveDictChildren at h
      match hr : rc n st with
      | .error e =>
          simp only [hr] at h
          injection h with h'
          rw [h'] at hr
          exact hch k n (List.mem_cons_self _ _) st hst hr
      | .ok (v1, st1) =>
          simp only [hr] at h
          have hmono := (hpost n st v1 st1 hr).1
          have hst1 : undisc r.root st1 ≤ U := Nat.le_trans (undisc_mono r.root hmono) hst
          match h2 : resolveDictChildren rc rest st1 with
          | .error e =>
              simp only [h2] at h
              injection h with h'
              rw [h'] at h2
              exact ih st1 (fun k' n' hm => hch k' n' (List.mem_cons_of_mem _ hm)) hst1 h2
          | .ok (vs, st2) =>
              simp only [h2] at h
              exact Except.noConfusion h

theorem resolveListChildren_not_fuelOut (rc : ResolveCont) (r : Resolver) (U : Nat)
    (hpost : ∀ n st v st', rc n st = .ok (v, st') → resolvePost st st') :
    ∀ (children : List Node) (st : RState),
    (∀ n, n ∈ children → ∀ st2, undisc r.root st2 ≤ U → rc n st2 ≠ .error .fuelOut) →
    undisc r.root st ≤ U →
    resolveListChildren rc children st ≠ .error .fuelOut := by
  intro children
  induction children with
  | nil => intro st _ _; simp [resolveListChildren]
  | cons n rest ih =>
      intro st hch hst h
      unfold resolveListChildren at h
      match hr : rc n st with
      | .error e =>
          simp only [hr] at h
          injection h with h'
          rw [h'] at hr
          exact hch n (List.mem_cons_self _ _) st hst hr
      | .ok (v1, st1) =>
          simp only [hr] at h
          have hmono := (hpost n st v1 st1 hr).1
          have hst1 : undisc r.root st1 ≤ U := Nat.le_trans (undisc_mono r.root hmono) hst
          match h2 : resolveListChildren rc rest st1 with
          | .error e =>
              simp only [h2] at h
              injection h with h'
              rw [h'] at h2
              exact ih st1 (fun n' hm => hch n' (List.mem_cons_of_mem _ hm)) hst1 h2
          | .ok (vs, st2) =>
              simp only [h2] at h
              exact Except.noConfusion h

/-- A leaf keypath of the tree whose cell is undiscovered witnesses a positive
undiscovered count. -/
theorem undisc_pos (root : Node) (st : RState) (kp : KeyPath)
    (hmem : kp ∈ leafKeypaths root) (hnone : getCell st kp = none) :
    1 ≤ undisc root st := by
  unfold undisc
  have : kp ∈ (leafKeypaths root).filter (fun kp => (getCell st kp).isNone) :=
    List.mem_filter.mpr ⟨hmem, by simp [hnone]⟩
  exact List.length_pos.mpr (fun he => by rw [he] at this; exact List.not_mem_nil _ this)

/-- The resolution engine cannot run out of stack: resolving any node
reachable from the resolver's root, in any state, returns without exhausting
the fuel whenever the fuel is at least `undisc * size(root) + size(node) + 1`
(undiscovered-leaf count times tree size) — provided the registry's parsers
themselves terminate.  Each pass through an undiscovered leaf marks it
pending first, so the reference recursion strictly decreases the
undiscovered-leaf count. -/
theorem resolveNode_no_fuelOut (r : Resolver)
    (hpar : ∀ s t, Resolver.parse r s t ≠ .error .fuelOut) :
    ∀ (fuel : Nat) (node : Node) (st : RState),
      Reach r.root node →
      undisc r.root st * nodeSize r.root + nodeSize node + 1 ≤ fuel →
      resolveNode r fuel node st ≠ .error .fuelOut := by
  intro fuel
  induction fuel using Nat.strong_induction_on with
  | _ fuel IH =>
      intro node st hreach hfuel
      match fuel, hfuel with
      | 0, hfuel => exact absurd hfuel (Nat.not_succ_le_zero _)
      | f + 1, hfuel =>
        have hpost : ∀ n st v st', resolveNode r f n st = .ok (v, st') → resolvePost st st' :=
          fun n st v st' h => resolveNode_ok_post r f n st v st' h
        have hf : undisc r.root st * nodeSize r.root + nodeSize node ≤ f :=
          Nat.le_of_succ_le_succ hfuel
        cases node with
        | dictN children =>
            intro h
            change (match resolveDictChildren (resolveNode r f) children st with
                    | .error e => (.error e : Except Exc (Value × RState))
                    | .ok (vs, st1) => .ok (.vdict vs, st1)) = .error .fuelOut at h
            match hd : resolveDictChildren (resolveNode r f) children st with
            | .ok (vs, st1) =>
                simp only [hd] at h
                exact Except.noConfusion h
            | .error e =>
                simp only [hd] at h
                injection h with h'
                rw [h'] at hd
                refine resolveDictChildren_not_fuelOut (resolveNode r f) r
                  (undisc r.root st) hpost children st ?_ (Nat.le_refl _) hd
                intro k n hmem st2 hu2
                apply IH f (Nat.lt_succ_self f) n st2
                  (Relation.ReflTransGen.tail hreach (Step.dictChild hmem))
                have hsz : nodeSize n + 1 ≤ nodeSize (Node.dictN children) := by
                  have h1 := nodeSizeDict_child children k n hmem
                  have h2 : nodeSize (Node.dictN children) = 1 + nodeSizeDict children := rfl
                  omega
                have hmul : undisc r.root st2 * nodeSize r.root
                    ≤ undisc r.root st * nodeSize r.root :=
                  Nat.mul_le_mul_right _ hu2
                calc undisc r.root st2 * nodeSize r.root + nodeSize n + 1
                    = undisc r.root st2 * nodeSize r.root + (nodeSize n + 1) := by
                      rw [Nat.add_assoc]
                  _ ≤ undisc r.root st * nodeSize r.root + nodeSize (Node.dictN children) :=
                      Nat.add_le_add hmul hsz
                  _ ≤ f := hf
        | listN children =>
            intro h
            change (match resolveListChildren (resolveNode r f) children st with
                    | .error e => (.error e : Except Exc (Value × RState))
                    | .ok (vs, st1) => .ok (.vlist vs, st1)) = .error .fuelOut at h
            match hd : resolveListChildren (resolveNode r f) children st with
            | .ok (vs, st1) =>
                simp only [hd] at h
                exact Except.noConfusion h
            | .error e =>
                simp only [hd] at h
                injection h with h'
                rw [h'] at hd
                refine resolveListChildren_not_fuelOut (resolveNode r f) r
                  (undisc r.root st) hpost children st ?_ (Nat.le_refl _) hd
                intro n hmem st2 hu2
                apply IH f (Nat.lt_succ_self f) n st2
                  (Relation.ReflTransGen.tail hreach (Step.listChild hmem))
                have hsz : nodeSize n + 1 ≤ nodeSize (Node.listN children) := by
                  have h1 := nodeSizeList_child children n hmem
                  have h2 : nodeSize (Node.listN children) = 1 + nodeSizeList children := rfl
                  omega
                have hmul : undisc r.root st2 * nodeSize r.root
                    ≤ undisc r.root st * nodeSize r.root :=
                  Nat.mul_le_mul_right _ hu2
                calc undisc r.root st2 * nodeSize r.root + nodeSize n + 1
                    = undisc r.root st2 * nodeSize r.root + (nodeSize n + 1) := by
                      rw [Nat.add_assoc]
                  _ ≤ undisc r.root st * nodeSize r.root + nodeSize (Node.listN children) :=
                      Nat.add_le_add hmul hsz
                  _ ≤ f := hf
        | leafN raw t kp nb =>
            intro h
            change leafResolve (resolveNode r f) r raw t kp nb st = .error .fuelOut at h
            unfold leafResolve at h
            match hcell : getCell st kp with
            | some .pending =>
                simp only [hcell] at h
                injection h with h'
                exact Exc.noConfusion h'
            | some (.resolvedV w) =>
                simp only [hcell] at h
                exact Except.noConfusion h
            | none =>
                simp only [hcell] at h
                have hkp : kp ∈ leafKeypaths r.root := reach_leaf_kp_mem hreach
                have hpos : 1 ≤ undisc r.root st := undisc_pos r.root st kp hkp hcell
                obtain ⟨u, hu⟩ : ∃ u, undisc r.root st = u + 1 :=
                  ⟨undisc r.root st - 1, by omega⟩
                have hlt : undisc r.root (setCell st kp .pending) ≤ u := by
                  have h1 := undisc_strict r.root st kp .pending hkp hcell
                  omega
                have hfu : u * nodeSize r.root + nodeSize r.root + 1 ≤ f := by
                  have hleaf : nodeSize (Node.leafN raw t kp nb) = 1 := rfl
                  rw [hu, hleaf] at hf
                  calc u * nodeSize r.root + nodeSize r.root + 1
                      = (u + 1) * nodeSize r.root + 1 := by rw [Nat.succ_mul]
                    _ ≤ f := hf
                have hrc : ∀ n st2, Reach r.root n → undisc r.root st2 ≤ u →
                    resolveNode r f n st2 ≠ .error .fuelOut := by
                  intro n st2 hre hu2
                  apply IH f (Nat.lt_succ_self f) n st2 hre
                  have hsz : nodeSize n ≤ nodeSize r.root := reach_size_le hre
                  have hmul : undisc r.root st2 * nodeSize r.root ≤ u * nodeSize r.root :=
                    Nat.mul_le_mul_right _ hu2
                  calc undisc r.root st2 * nodeSize r.root + nodeSize n + 1
                      ≤ u * nodeSize r.root + nodeSize r.root + 1 :=
                        Nat.add_le_add (Nat.add_le_add hmul hsz) (Nat.le_refl 1)
                    _ ≤ f := hfu
                match hI : interpolateAll (resolveNode r f) r kp (references raw) raw
                    (setCell st kp .pending) with
                | .error e =>
                    simp only [hI] at h
                    injection h with h'
                    rw [h'] at hI
                    exact interpolateAll_not_fuelOut (resolveNode r f) r u hrc hpost kp
                      (references raw) raw _ hlt hI
                | .ok (s, st2) =>
                    simp only [hI] at h
                    by_cases hnull : (nb && raw.isNone) = true
                    · rw [if_pos hnull] at h
                      exact Except.noConfusion h
                    · rw [if_neg hnull] at h
                      match hp : safely kp (Resolver.parse r s t) with
                      | .error e =>
                          simp only [hp] at h
                          injection h with h'
                          rw [h'] at hp
                          exact safely_not_fuelOut kp _ (hpar s t) hp
                      | .ok pv =>
                          simp only [hp] at h
                          exact Except.noConfusion h

mutual
theorem leafKeypaths_length_le : ∀ n : Node, (leafKeypaths n).length ≤ nodeSize n
  | .leafN raw t kp nb => by simp [leafKeypaths, nodeSize]
  | .dictN children => by
      show (leafKeypathsDict children).length ≤ 1 + nodeSizeDict children
      exact Nat.le_trans (leafKeypathsDict_length_le children) (Nat.le_add_left _ 1)
  | .listN children => by
      show (leafKeypathsList children).length ≤ 1 + nodeSizeList children
      exact Nat.le_trans (leafKeypathsList_length_le children) (Nat.le_add_left _ 1)

theorem leafKeypathsDict_length_le :
    ∀ children : List (String × Node), (leafKeypathsDict children).length ≤ nodeSizeDict children
  | [] => by simp [leafKeypathsDict, nodeSizeDict]
  | (k, n) :: rest => by
      show (leafKeypaths n ++ leafKeypathsDict rest).length ≤ nodeSize n + nodeSizeDict rest
      rw [List.length_append]
      exact Nat.add_le_add (leafKeypaths_length_le n) (leafKeypathsDict_length_le rest)

theorem leafKeypathsList_length_le :
    ∀ children : List Node, (leafKeypathsList children).length ≤ nodeSizeList children
  | [] => by simp [leafKeypathsList, nodeSizeList]
  | n :: rest => by
      show (leafKeypaths n ++ leafKeypathsList rest).length ≤ nodeSize n + nodeSizeList rest
      rw [List.length_append]
      exact Nat.add_le_add (leafKeypaths_length_le n) (leafKeypathsList_length_le rest)
end

/-- In every state the undiscovered count is at most the tree size. -/
theorem undisc_le_size (root : Node) (st : RState) : undisc root st ≤ nodeSize root :=
  Nat.le_trans (List.length_filter_le _ _) (leafKeypaths_length_le root)

theorem evalA_not_fuelOut : ∀ a : AExpr, evalA a ≠ .error .fuelOut := by
  intro a
  induction a with
  | num n => simp [evalA]
  | aname => simp [evalA]
  | add a b iha ihb =>
      intro h
      unfold evalA at h
      match ha : evalA a with
      | .error e =>
          simp only [ha] at h
          injection h with h'
          rw [h'] at ha
          exact iha ha
      | .ok x =>
          simp only [ha] at h
          match hb : evalA b with
          | .error e =>
              simp only [hb] at h
              injection h with h'
              rw [h'] at hb
              exact ihb hb
          | .ok y =>
              simp only [hb] at h
              exact Except.noConfusion h
  | sub a b iha ihb =>
      intro h
      unfold evalA at h
      match ha : evalA a with
      | .error e =>
          simp only [ha] at h
          injection h with h'
          rw [h'] at ha
          exact iha ha
      | .ok x =>
          simp only [ha] at h
          match hb : evalA b with
          | .error e =>
              simp only [hb] at h
              injection h with h'
              rw [h'] at hb
              exact ihb hb
          | .ok y =>
              simp only [hb] at h
              exact Except.noConfusion h
  | mul a b iha ihb =>
      intro h
      unfold evalA at h
      match ha : evalA a with
      | .error e =>
          simp only [ha] at h
          injection h with h'
          rw [h'] at ha
          exact iha ha
      | .ok x =>
          simp only [ha] at h
          match hb : evalA b with
          | .error e =>
              simp only [hb] at h
              injection h with h'
              rw [h'] at hb
              exact ihb hb
          | .ok y =>
              simp only [hb] at h
              exact Except.noConfusion h
  | neg a iha =>
      intro h
      unfold evalA at h
      match ha : evalA a with
      | .error e =>
          simp only [ha] at h
          injection h with h'
          rw [h'] at ha
          exact iha ha
      | .ok x =>
          simp only [ha] at h
          exact Except.noConfusion h

theorem evalArith_not_fuelOut (s : String) : evalArith s ≠ .error .fuelOut := by
  intro h
  unfold evalArith at h
  match ht : tokenize s with
  | none => simp only [ht] at h; exact Exc.noConfusion (Except.error.inj h)
  | some toks =>
      simp only [ht] at h
      match hp : parseE (2 * toks.length + 2) toks with
      | some (a, []) =>
          simp only [hp] at h
          exact evalA_not_fuelOut a h
      | some (a, tok :: rest) =>
          simp only [hp] at h
          exact Exc.noConfusion (Except.error.inj h)
      | none =>
          simp only [hp] at h
          exact Exc.noConfusion (Except.error.inj h)

theorem arithmeticInt_not_fuelOut (v : Value) : arithmeticInt v ≠ .error .fuelOut := by
  intro h
  unfold arithmeticInt at h
  match v with
  | .vint n => exact Except.noConfusion h
  | .vbool b => exact Except.noConfusion h
  | .vnone => exact Exc.noConfusion (Except.error.inj h)
  | .vlist xs => exact Exc.noConfusion (Except.error.inj h)
  | .vdict xs => exact Exc.noConfusion (Except.error.inj h)
  | .vstr s =>
      match he : evalArith s with
      | .ok n => simp only [he] at h; exact Except.noConfusion h
      | .error e =>
          simp only [he] at h
          injection h with h'
          rw [h'] at he
          exact evalArith_not_fuelOut s he

/-- None of the default parsers can exhaust the stack. -/
theorem default_parse_not_fuelOut (root : Node) (ext : Value) (s : Value) (t : String) :
    Resolver.parse ⟨root, ext, DEFAULT_PARSERS⟩ s t ≠ .error .fuelOut := by
  unfold Resolver.parse
  by_cases h1 : t = "integer"
  · subst h1
    rw [show DEFAULT_PARSERS.lookup "integer" = some arithmeticInt from rfl]
    exact arithmeticInt_not_fuelOut s
  · by_cases h2 : t = "float"
    · subst h2
      rw [show DEFAULT_PARSERS.lookup "float" = some (unmodelledParser "float") from rfl]
      simp [unmodelledParser]
    · by_cases h3 : t = "string"
      · subst h3
        rw [show DEFAULT_PARSERS.lookup "string" = some stringParser from rfl]
        simp [stringParser]
      · by_cases h4 : t = "boolean"
        · subst h4
          rw [show DEFAULT_PARSERS.lookup "boolean"
                = some (unmodelledParser "boolean") from rfl]
          simp [unmodelledParser]
        · by_cases h5 : t = "date"
          · subst h5
            rw [show DEFAULT_PARSERS.lookup "date" = some (unmodelledParser "date") from rfl]
            simp [unmodelledParser]
          · by_cases h6 : t = "datetime"
            · subst h6
              rw [show DEFAULT_PARSERS.lookup "datetime"
                    = some (unmodelledParser "datetime") from rfl]
              simp [unmodelledParser]
            · by_cases h7 : t = "any"
              · subst h7
                rw [show DEFAULT_PARSERS.lookup "any" = some anyParser from rfl]
                simp [anyParser]
              · have e1 : (t == "integer") = false := beq_eq_false_iff_ne.mpr h1
                have e2 : (t == "float") = false := beq_eq_false_iff_ne.mpr h2
                have e3 : (t == "string") = false := beq_eq_false_iff_ne.mpr h3
                have e4 : (t == "boolean") = false := beq_eq_false_iff_ne.mpr h4
                have e5 : (t == "date") = false := beq_eq_false_iff_ne.mpr h5
                have e6 : (t == "datetime") = false := beq_eq_false_iff_ne.mpr h6
                have e7 : (t == "any") = false := beq_eq_false_iff_ne.mpr h7
                rw [show DEFAULT_PARSERS.lookup t = none by
                      simp [DEFAULT_PARSERS, List.lookup, e1, e2, e3, e4, e5, e6, e7]]
                intro hh
                exact Exc.noConfusion (Except.error.inj hh)

/-- C1 counterexample: in `cycleDanglingRaw` the leaves `a` and `b` form a
reference cycle (the second placeholder of `a` references `b` and `b`
references `a`), yet `resolve` does not fail with the `Circular reference`
error: the first placeholder of `a` dangles, and its `Cannot resolve` error —
raised before the cycle is ever entered — aborts the whole resolution.  The
surfaced error neither is nor wraps `Circular reference`. -/
theorem c1_counterexample_cycle_masked_by_earlier_error :
    references (.vstr "$\x7bself.na\x7d $\x7bself.b\x7d") = ["self.na", "self.b"] ∧
    references (.vstr "$\x7bself.a\x7d") = ["self.a"] ∧
    resolve 100 cycleDanglingRaw cycleDanglingSchema
      = .error (.resolutionWrap (.plainError "Cannot resolve: self.na") [.key "a"]) ∧
    Exc.mentionsCircular
      (.resolutionWrap (.plainError "Cannot resolve: self.na") [.key "a"]) = false :=
  ⟨rfl, rfl, rfl, rfl⟩

/-- C1 (amended): (i) entering the resolution of a leaf whose memoization cell
is `_PENDING` fails with the `Circular reference` resolution error at that
leaf's keypath — this holds for every continuation, resolver and state; (ii)
the default parsers never exhaust the stack; (iii) for any resolver whose
parsers never exhaust the stack, resolution of the root from any state never
exhausts the stack once the fuel reaches `size² + size + 1` — resolution
cannot loop forever, each leaf being resolved at most once between
discoveries; (iv) on the pure two-leaf cycle `foo ↔ bar` the run fails and
the surfaced error wraps `Circular reference` at a keypath of a leaf in the
cycle.  (Amendment: the failure is guaranteed to be `CircularReference` only
when a leaf of the cycle is actually entered; an unrelated error raised
earlier, as in `c1_counterexample_cycle_masked_by_earlier_error`, surfaces
instead.) -/
theorem c1_amended_cycle_detection :
    (∀ (rc : ResolveCont) (r : Resolver) (raw : Value) (t : String) (kp : KeyPath)
       (nb : Bool) (st : RState), getCell st kp = some .pending →
       leafResolve rc r raw t kp nb st = .error (.resolutionMsg "Circular reference" kp)) ∧
    (∀ (root : Node) (ext s : Value) (t : String),
       Resolver.parse ⟨root, ext, DEFAULT_PARSERS⟩ s t ≠ .error .fuelOut) ∧
    (∀ (r : Resolver) (fuel : Nat) (st : RState),
       (∀ s t, Resolver.parse r s t ≠ .error .fuelOut) →
       nodeSize r.root * nodeSize r.root + nodeSize r.root + 1 ≤ fuel →
       resolveNode r fuel r.root st ≠ .error .fuelOut) ∧
    (resolve 100 cycle2Raw cycle2Schema
       = .error (.resolutionWrap (.resolutionWrap
           (.resolutionMsg "Circular reference" [.key "foo"]) [.key "bar"]) [.key "foo"]) ∧
     Exc.mentionsCircular (.resolutionWrap (.resolutionWrap
           (.resolutionMsg "Circular reference" [.key "foo"]) [.key "bar"]) [.key "foo"])
       = true) := by
  refine ⟨?_, ?_, ?_, rfl, rfl⟩
  · intro rc r raw t kp nb st h
    unfold leafResolve
    rw [h]
  · intro root ext s t
    exact default_parse_not_fuelOut root ext s t
  · intro r fuel st hpar hfuel
    apply resolveNode_no_fuelOut r hpar fuel r.root st Relation.ReflTransGen.refl
    calc undisc r.root st * nodeSize r.root + nodeSize r.root + 1
        ≤ nodeSize r.root * nodeSize r.root + nodeSize r.root + 1 :=
          Nat.add_le_add_right (Nat.add_le_add_right
            (Nat.mul_le_mul_right _ (undisc_le_size r.root st)) _) 1
      _ ≤ fuel := hfuel

/-- Witness for C1: the pending-cell branch fires on a concrete leaf and
state, and on the one-leaf resolver with default parsers resolution from the
empty state cannot run out of a fuel of 20 (the bound is 1·1+1+1 = 3). -/
theorem c1_witness :
    leafResolve (resolveNode nullLeafResolver 10) nullLeafResolver
        .vnone "any" [.key "x"] false (setCell RState.initial [.key "x"] .pending)
      = .error (.resolutionMsg "Circular reference" [.key "x"]) ∧
    resolveNode nullLeafResolver 20 nullLeaf RState.initial ≠ .error .fuelOut := by
  refine ⟨?_, ?_⟩
  · exact c1_amended_cycle_detection.1 (resolveNode nullLeafResolver 10) nullLeafResolver
      .vnone "any" [.key "x"] false (setCell RState.initial [.key "x"] .pending) rfl
  · exact c1_amended_cycle_detection.2.2.1 nullLeafResolver 20 RState.initial
      (fun s t => c1_amended_cycle_detection.2.1 nullLeaf (.vdict []) s t)
      (by decide)

end Dictconfig
